import Mathlib

/-
Verification of the HiGHS simplex engine core (HEkk.cpp) and its LP
interface layer (HighsInterface.cpp) against the natural-language
specification.

Embedding conventions:
* C++ double is modelled by the rationals.  The infinite bound/cost
  sentinel kHighsInf is modelled by the distinguished rational 10^200
  (mirroring the historic HIGHS_CONST_INF value); the source predicate
  highs_isInfinity(v), which is v >= kHighsInf, is translated literally.
* C++ arrays indexed by variables are modelled either by Lean lists
  (where lengths and resizing matter) or by total functions out of Nat
  (where only pointwise reads and writes matter); every array write in
  the source becomes a List.set or a Function.update in the same order
  as in the source.
* Fallible operations return a pair of a status value and the new state,
  following the tri-valued HighsStatus of the source.
-/

namespace HiGHS

/-- Model of the infinite bound/cost sentinel kHighsInf: the numeral
10^200, written as a literal so that kernel evaluation is cheap. -/
def kHighsInf : ℚ :=
  100000000000000000000000000000000000000000000000000000000000000000000000000000000000000000000000000000000000000000000000000000000000000000000000000000000000000000000000000000000000000000000000000000000

/-- Translation of highs_isInfinity from the source: v >= kHighsInf. -/
def highs_isInfinity (v : ℚ) : Bool := kHighsInf ≤ v

/-- Simplex constant kNonbasicFlagTrue from SimplexConst.h. -/
def kNonbasicFlagTrue : Int := 1

/-- Simplex constant kNonbasicFlagFalse from SimplexConst.h. -/
def kNonbasicFlagFalse : Int := 0

/-- Simplex constant kNonbasicMoveUp from SimplexConst.h. -/
def kNonbasicMoveUp : Int := 1

/-- Simplex constant kNonbasicMoveDn from SimplexConst.h. -/
def kNonbasicMoveDn : Int := -1

/-- Simplex constant kNonbasicMoveZe from SimplexConst.h. -/
def kNonbasicMoveZe : Int := 0

/-- Simplex constant kIllegalMoveValue (any value distinct from the three
legal moves; the concrete value is never observable). -/
def kIllegalMoveValue : Int := 99

/-- SimplexBasis of SimplexStruct.h: nonbasicFlag and nonbasicMove over all
numCol+numRow variables, and basicIndex mapping each basic position (row)
to a variable index. -/
structure SimplexBasis where
  nonbasicFlag : Nat → Int
  nonbasicMove : Nat → Int
  basicIndex : List Nat

/-- Work arrays and counters of HighsSimplexInfo used by the engine
operations verified here. -/
structure SimplexInfo where
  workCost : Nat → ℚ
  workDual : Nat → ℚ
  workShift : Nat → ℚ
  workLower : Nat → ℚ
  workUpper : Nat → ℚ
  workRange : Nat → ℚ
  workValue : Nat → ℚ
  baseLower : Nat → ℚ
  baseUpper : Nat → ℚ
  baseValue : Nat → ℚ
  updated_dual_objective_value : ℚ
  update_count : Nat
  num_basic_logicals : Int
  costs_perturbed : Bool
  allow_cost_perturbation : Bool

/-- Status flags of HighsSimplexLpStatus touched by the verified
operations. -/
structure SimplexLpStatus where
  has_basis : Bool
  has_invert : Bool
  has_fresh_invert : Bool
  has_fresh_rebuild : Bool

/-- State of the HEkk engine: LP dimensions, simplex basis, work arrays
and status flags, plus the cost scale factor. -/
structure EkkState where
  numCol : Nat
  numRow : Nat
  sense : Int
  basis : SimplexBasis
  info : SimplexInfo
  status : SimplexLpStatus
  cost_scale : ℚ

/-- Translation of HEkk::updatePivots: install variable_in at basic
position row_out, make the displaced variable nonbasic at the bound
selected by move_out, update the dual objective, counters and status
flags. -/
def updatePivots (s : EkkState) (variable_in row_out : Nat) (move_out : Int) :
    EkkState :=
  let variable_out := s.basis.basicIndex.getD row_out 0
  -- Incoming variable
  let basicIndex := s.basis.basicIndex.set row_out variable_in
  let nonbasicFlag := Function.update s.basis.nonbasicFlag variable_in 0
  let nonbasicMove := Function.update s.basis.nonbasicMove variable_in 0
  let baseLower :=
    Function.update s.info.baseLower row_out (s.info.workLower variable_in)
  let baseUpper :=
    Function.update s.info.baseUpper row_out (s.info.workUpper variable_in)
  -- Outgoing variable: value and move according to move_out and bounds
  let outValueMove : ℚ × Int :=
    if s.info.workLower variable_out = s.info.workUpper variable_out then
      (s.info.workLower variable_out, 0)
    else if move_out = -1 then
      (s.info.workLower variable_out, 1)
    else
      (s.info.workUpper variable_out, -1)
  let nonbasicFlagOut := Function.update nonbasicFlag variable_out 1
  let workValue := Function.update s.info.workValue variable_out outValueMove.1
  let nonbasicMoveOut := Function.update nonbasicMove variable_out outValueMove.2
  -- Update the dual objective value
  let dl_dual_objective_value := outValueMove.1 * s.info.workDual variable_out
  { s with
    basis :=
      { nonbasicFlag := nonbasicFlagOut
        nonbasicMove := nonbasicMoveOut
        basicIndex := basicIndex }
    info :=
      { s.info with
        baseLower := baseLower
        baseUpper := baseUpper
        workValue := workValue
        updated_dual_objective_value :=
          s.info.updated_dual_objective_value + dl_dual_objective_value
        update_count := s.info.update_count + 1
        num_basic_logicals :=
          s.info.num_basic_logicals
            + (if variable_out < s.numCol then 1 else 0)
            - (if variable_in < s.numCol then 1 else 0) }
    status :=
      { s.status with
        has_invert := false
        has_fresh_invert := false
        has_fresh_rebuild := false } }

/-- Translation of the nonbasicMove choice for a column in the no-argument
HEkk::setBasis: fixed gives zero, boxed picks the bound with smaller
absolute value, one-sided picks the finite bound, free gives zero. -/
def setBasisLogicalMove (lower upper : ℚ) : Int :=
  if lower = upper then kNonbasicMoveZe
  else if ¬ highs_isInfinity (-lower) then
    if ¬ highs_isInfinity upper then
      if |lower| < |upper| then kNonbasicMoveUp else kNonbasicMoveDn
    else kNonbasicMoveUp
  else if ¬ highs_isInfinity upper then kNonbasicMoveDn
  else kNonbasicMoveZe

/-- Translation of the no-argument HEkk::setBasis: every column nonbasic
with a bound-derived move, every logical (slack) basic, with
basicIndex[iRow] = numCol + iRow. -/
def setBasisLogical (numCol numRow : Nat) (colLower colUpper : Nat → ℚ) :
    SimplexBasis :=
  { nonbasicFlag := fun v =>
      if v < numCol then kNonbasicFlagTrue else kNonbasicFlagFalse
    nonbasicMove := fun v =>
      if v < numCol then setBasisLogicalMove (colLower v) (colUpper v) else 0
    basicIndex := (List.range numRow).map (fun iRow => numCol + iRow) }

/-- Translation of the basis-install step of Highs::setHotStartInterface:
basicIndex is taken from the refactorization packet, nonbasicMove is the
move vector of the packet, nonbasicFlag is assigned all-true and then the
entry of every variable appearing in basicIndex is reset to false. -/
def setHotStartBasis (pivot_var : List Nat) (hotMove : Nat → Int) :
    SimplexBasis :=
  let nonbasicFlag :=
    pivot_var.foldl (fun f v => Function.update f v kNonbasicFlagFalse)
      (fun _ => kNonbasicFlagTrue)
  { nonbasicFlag := nonbasicFlag
    nonbasicMove := hotMove
    basicIndex := pivot_var }

/-- Basic/nonbasic partition invariant of the specification: basicIndex
has exactly numRow entries, all in range, with no repeats, and the
nonbasicFlag entry of a variable is false exactly when the variable occurs
in basicIndex. -/
def basisInvariant (numCol numRow : Nat) (b : SimplexBasis) : Prop :=
  b.basicIndex.length = numRow ∧
  (∀ v ∈ b.basicIndex, v < numCol + numRow) ∧
  b.basicIndex.Nodup ∧
  (∀ v < numCol + numRow,
    (b.nonbasicFlag v = kNonbasicFlagFalse ↔ v ∈ b.basicIndex))

instance (numCol numRow : Nat) (b : SimplexBasis) :
    Decidable (basisInvariant numCol numRow b) := by
  unfold basisInvariant; infer_instance

/-- Setting a fresh element keeps a list without duplicates. -/
theorem nodup_set_of_not_mem {l : List Nat} {a : Nat} (hn : l.Nodup)
    (ha : a ∉ l) : ∀ p, (l.set p a).Nodup := by
  induction l with
  | nil => intro p; simp
  | cons h t ih =>
      intro p
      cases p with
      | zero =>
          simp only [List.set_cons_zero, List.nodup_cons] at *
          exact ⟨fun hm => ha (List.mem_cons_of_mem _ hm), hn.2⟩
      | succ p =>
          simp only [List.set_cons_succ, List.nodup_cons] at *
          refine ⟨fun hm => ?_, ih hn.2 (fun hm => ha (List.mem_cons_of_mem _ hm)) p⟩
          rcases List.mem_or_eq_of_mem_set hm with hm | rfl
          · exact hn.1 hm
          · exact ha (List.mem_cons_self _ _)

/-- In a list without duplicates, the element displaced by a set with a
different value no longer occurs. -/
theorem not_mem_set_self {l : List Nat} {p : Nat} (hn : l.Nodup)
    (hp : p < l.length) {a : Nat} (hne : a ≠ l[p]) :
    l[p] ∉ l.set p a := by
  intro hm
  rcases List.mem_iff_getElem.mp hm with ⟨j, hj, hje⟩
  have hjl : j < l.length := by simpa [List.length_set] using hj
  by_cases hjp : p = j
  · subst hjp
    rw [List.getElem_set_self hj] at hje
    exact hne hje
  · rw [List.getElem_set_ne hjp] at hje
    exact hjp ((List.Nodup.getElem_inj_iff hn).mp hje).symm

/-- Membership in a list after a set, for values different from the one
written and from the one displaced. -/
theorem mem_set_iff_of_ne {l : List Nat} {p : Nat} (hp : p < l.length)
    {a v : Nat} (hva : v ≠ a) (hvo : v ≠ l[p]) :
    v ∈ l.set p a ↔ v ∈ l := by
  constructor
  · intro hm
    rcases List.mem_or_eq_of_mem_set hm with hm | rfl
    · exact hm
    · exact absurd rfl hva
  · intro hm
    rcases List.mem_iff_getElem.mp hm with ⟨j, hj, hje⟩
    have hjp : p ≠ j := by
      intro h; subst h; exact hvo hje.symm
    have hjl : j < (l.set p a).length := by simpa [List.length_set] using hj
    refine List.mem_iff_getElem.mpr ⟨j, hjl, ?_⟩
    rw [List.getElem_set_ne hjp]
    exact hje

/-- The value written by a set occurs in the result. -/
theorem mem_set_self {l : List Nat} {p : Nat} (hp : p < l.length) (a : Nat) :
    a ∈ l.set p a := by
  have hpl : p < (l.set p a).length := by simpa [List.length_set] using hp
  exact List.mem_iff_getElem.mpr ⟨p, hpl, List.getElem_set_self hpl⟩

/-- Characterization of the nonbasicFlag produced by the hot-start
install loop. -/
theorem hotStartFlag_eq (l : List Nat) (f : Nat → Int) (v : Nat) :
    (l.foldl (fun g w => Function.update g w kNonbasicFlagFalse) f) v
      = if v ∈ l then kNonbasicFlagFalse else f v := by
  induction l generalizing f with
  | nil => simp
  | cons a t ih =>
      simp only [List.foldl_cons, ih, List.mem_cons]
      by_cases hvt : v ∈ t
      · simp [hvt]
      · by_cases hva : v = a
        · simp [hva, hvt, Function.update]
        · simp [hvt, hva, Function.update]

/-- Unfolding lemma: basicIndex after updatePivots. -/
theorem updatePivots_basicIndex (s : EkkState) (q p : Nat) (mo : Int) :
    (updatePivots s q p mo).basis.basicIndex = s.basis.basicIndex.set p q := rfl

/-- Unfolding lemma: nonbasicFlag after updatePivots. -/
theorem updatePivots_nonbasicFlag (s : EkkState) (q p : Nat) (mo : Int) :
    (updatePivots s q p mo).basis.nonbasicFlag =
      Function.update (Function.update s.basis.nonbasicFlag q 0)
        (s.basis.basicIndex.getD p 0) 1 := rfl

/-- Claim C1: the basic/nonbasic partition invariant (basicIndex has
exactly numRow entries drawn from the variable range with no repeats, and
nonbasicFlag is false exactly on the members of basicIndex) is preserved
by updatePivots whenever the entering variable is in range and currently
nonbasic and the leaving row is in range, is established by the logical
setBasis, and is established by the hot-start basis install whenever the
packet carries numRow distinct in-range pivot variables. -/
theorem basis_partition_invariant :
    (∀ (s : EkkState) (q p : Nat) (mo : Int),
        basisInvariant s.numCol s.numRow s.basis →
        q < s.numCol + s.numRow →
        s.basis.nonbasicFlag q ≠ kNonbasicFlagFalse →
        p < s.numRow →
        basisInvariant s.numCol s.numRow (updatePivots s q p mo).basis) ∧
    (∀ (numCol numRow : Nat) (colLower colUpper : Nat → ℚ),
        basisInvariant numCol numRow
          (setBasisLogical numCol numRow colLower colUpper)) ∧
    (∀ (numCol numRow : Nat) (pv : List Nat) (hotMove : Nat → Int),
        pv.length = numRow → (∀ v ∈ pv, v < numCol + numRow) → pv.Nodup →
        basisInvariant numCol numRow (setHotStartBasis pv hotMove)) := by
  refine ⟨?_, ?_, ?_⟩
  · -- updatePivots preserves the invariant
    rintro s q p mo ⟨hlen, hrange, hnodup, hflag⟩ hq hqflag hp
    have hpl : p < s.basis.basicIndex.length := by rw [hlen]; exact hp
    have hqnot : q ∉ s.basis.basicIndex := by
      intro hm
      exact hqflag ((hflag q hq).mpr hm)
    have hvout_mem : s.basis.basicIndex[p] ∈ s.basis.basicIndex :=
      List.getElem_mem hpl
    have hvout_lt : s.basis.basicIndex[p] < s.numCol + s.numRow :=
      hrange _ hvout_mem
    have hqne : q ≠ s.basis.basicIndex[p] := by
      intro h; rw [h] at hqnot; exact hqnot hvout_mem
    have hgetD : s.basis.basicIndex.getD p 0 = s.basis.basicIndex[p] :=
      List.getD_eq_getElem _ _ hpl
    rw [basisInvariant, updatePivots_basicIndex, updatePivots_nonbasicFlag,
      hgetD]
    refine ⟨by simpa [List.length_set] using hlen, ?_, ?_, ?_⟩
    · intro v hv
      rcases List.mem_or_eq_of_mem_set hv with hv | rfl
      · exact hrange v hv
      · exact hq
    · exact nodup_set_of_not_mem hnodup hqnot p
    · intro v hv
      by_cases hvo : v = s.basis.basicIndex[p]
      · subst hvo
        have h1 : Function.update (Function.update s.basis.nonbasicFlag q 0)
            s.basis.basicIndex[p] 1 s.basis.basicIndex[p] = 1 := by
          simp [Function.update]
        rw [h1]
        simp only [kNonbasicFlagFalse]
        constructor
        · intro h; exact absurd h (by decide)
        · intro h; exact absurd h (not_mem_set_self hnodup hpl hqne)
      · by_cases hvq : v = q
        · subst hvq
          have h1 : Function.update (Function.update s.basis.nonbasicFlag v 0)
              s.basis.basicIndex[p] 1 v = 0 := by
            simp [Function.update, hvo]
          rw [h1]
          simp only [kNonbasicFlagFalse]
          exact ⟨fun _ => mem_set_self hpl v, fun _ => trivial⟩
        · have h1 : Function.update (Function.update s.basis.nonbasicFlag q 0)
              s.basis.basicIndex[p] 1 v = s.basis.nonbasicFlag v := by
            simp [Function.update, hvo, hvq]
          rw [h1, mem_set_iff_of_ne hpl hvq hvo]
          exact hflag v hv
  · -- the logical basis satisfies the invariant
    intro numCol numRow colLower colUpper
    refine ⟨by simp [setBasisLogical], ?_, ?_, ?_⟩
    · intro v hv
      simp only [setBasisLogical, List.mem_map, List.mem_range] at hv
      omega
    · exact List.Nodup.map (fun a b h => by omega) (List.nodup_range numRow)
    · intro v hv
      simp only [setBasisLogical, List.mem_map, List.mem_range,
        kNonbasicFlagTrue, kNonbasicFlagFalse]
      by_cases hvc : v < numCol
      · simp only [if_pos hvc]
        constructor
        · intro h; exact absurd h (by decide)
        · rintro ⟨i, hi, rfl⟩; omega
      · simp only [if_neg hvc]
        exact ⟨fun _ => ⟨v - numCol, by omega, by omega⟩, fun _ => trivial⟩
  · -- the hot-start basis install satisfies the invariant
    intro numCol numRow pv hotMove hlen hrange hnodup
    refine ⟨hlen, hrange, hnodup, ?_⟩
    intro v hv
    simp only [setHotStartBasis, hotStartFlag_eq]
    by_cases hm : v ∈ pv
    · simp [hm]
    · simp only [if_neg hm, kNonbasicFlagTrue, kNonbasicFlagFalse]
      exact ⟨fun h => absurd h (by decide), fun h => absurd h hm⟩

/-- Concrete engine state used by the witness: one column (boxed in
[0,1], nonbasic at its lower bound) and one row whose logical is basic. -/
def ekkStateW : EkkState :=
  { numCol := 1
    numRow := 1
    sense := 1
    basis :=
      { nonbasicFlag := fun v => if v < 1 then 1 else 0
        nonbasicMove := fun v => if v < 1 then 1 else 0
        basicIndex := [1] }
    info :=
      { workCost := fun _ => 0
        workDual := fun _ => 0
        workShift := fun _ => 0
        workLower := fun _ => 0
        workUpper := fun _ => 1
        workRange := fun _ => 1
        workValue := fun _ => 0
        baseLower := fun _ => 0
        baseUpper := fun _ => 0
        baseValue := fun _ => 0
        updated_dual_objective_value := 0
        update_count := 0
        num_basic_logicals := 1
        costs_perturbed := false
        allow_cost_perturbation := true }
    status :=
      { has_basis := true
        has_invert := true
        has_fresh_invert := true
        has_fresh_rebuild := true }
    cost_scale := 1 }

/-- Witness for claim C1 at a concrete state: pivoting column 0 into row 0
preserves the invariant, and a concrete hot-start install satisfies it. -/
theorem basis_partition_invariant_witness :
    basisInvariant 1 1 (updatePivots ekkStateW 0 0 (-1)).basis ∧
    basisInvariant 1 1 (setHotStartBasis [0] (fun _ => 0)) :=
  ⟨basis_partition_invariant.1 ekkStateW 0 0 (-1) (by decide) (by decide)
      (by decide) (by decide),
   basis_partition_invariant.2.2 1 1 [0] (fun _ => 0) (by decide) (by decide)
      (by decide)⟩

/-- HighsSolution: primal and dual values for columns and rows. -/
structure HighsSolution where
  col_value : List ℚ
  col_dual : List ℚ
  row_value : List ℚ
  row_dual : List ℚ

/-- Scatter loop of HEkk::getSolution: for each row, the base value of the
row is written into the work value slot of the basic variable of the
row. -/
def scatteredWorkValue (s : EkkState) : Nat → ℚ :=
  (List.range s.numRow).foldl
    (fun w iRow =>
      Function.update w (s.basis.basicIndex.getD iRow 0) (s.info.baseValue iRow))
    s.info.workValue

/-- Zeroing loop of HEkk::getSolution: the dual value of every basic
variable is set to zero. -/
def scatteredWorkDual (s : EkkState) : Nat → ℚ :=
  (List.range s.numRow).foldl
    (fun w iRow => Function.update w (s.basis.basicIndex.getD iRow 0) 0)
    s.info.workDual

/-- Translation of HEkk::getSolution: scatter the basic primal values into
workValue via basicIndex, zero the basic dual values, then read column
values and duals directly, row values as negated logical work values, and
multiply every dual by the objective sense. -/
def getSolution (s : EkkState) : HighsSolution :=
  -- Scatter the basic primal values
  let workValue := scatteredWorkValue s
  -- Zero the basic dual values
  let workDual := scatteredWorkDual s
  { col_value := (List.range s.numCol).map (fun iCol => workValue iCol)
    col_dual := (List.range s.numCol).map (fun iCol => (s.sense : ℚ) * workDual iCol)
    row_value := (List.range s.numRow).map (fun iRow => -(workValue (s.numCol + iRow)))
    row_dual :=
      (List.range s.numRow).map (fun iRow => (s.sense : ℚ) * workDual (s.numCol + iRow)) }

/-- A fold of pointwise writes leaves untouched every slot whose index is
not among the written keys. -/
theorem foldl_update_not_mem {α : Type} (ps : List (Nat × α)) (w : Nat → α)
    (v : Nat) (hv : ∀ pr ∈ ps, pr.1 ≠ v) :
    (ps.foldl (fun g pr => Function.update g pr.1 pr.2) w) v = w v := by
  induction ps generalizing w with
  | nil => rfl
  | cons hd t ih =>
      simp only [List.foldl_cons]
      rw [ih _ (fun pr hpr => hv pr (List.mem_cons_of_mem _ hpr))]
      have : hd.1 ≠ v := hv hd (List.mem_cons_self _ _)
      simp [Function.update, this.symm]

/-- A fold of pointwise writes with pairwise distinct keys stores each
written value at its key. -/
theorem foldl_update_nodup {α : Type} (ps : List (Nat × α)) (w : Nat → α)
    (hnd : (ps.map Prod.fst).Nodup) {k : Nat} {a : α} (hm : (k, a) ∈ ps) :
    (ps.foldl (fun g pr => Function.update g pr.1 pr.2) w) k = a := by
  induction ps generalizing w with
  | nil => cases hm
  | cons hd t ih =>
      simp only [List.map_cons, List.nodup_cons] at hnd
      rcases List.mem_cons.mp hm with rfl | hm
      · simp only [List.foldl_cons]
        rw [foldl_update_not_mem]
        · simp [Function.update]
        · intro pr hpr h
          have hmem : pr.1 ∈ t.map Prod.fst := List.mem_map_of_mem Prod.fst hpr
          exact hnd.1 (h ▸ hmem)
      · simp only [List.foldl_cons]
        exact ih _ hnd.2 hm

/-- A fold of writes driven by a range of row indices equals the fold of
writes over the corresponding key/value pair list. -/
theorem scatter_eq_pairs (n : Nat) (key : Nat → Nat) (val : Nat → ℚ)
    (base : Nat → ℚ) :
    (List.range n).foldl (fun w r => Function.update w (key r) (val r)) base
      = ((List.range n).map (fun r => (key r, val r))).foldl
          (fun w pr => Function.update w pr.1 pr.2) base := by
  rw [List.foldl_map]

/-- Reading every position of a list by getD reproduces the list. -/
theorem range_map_getD (l : List Nat) :
    (List.range l.length).map (fun i => l.getD i 0) = l := by
  apply List.ext_getElem
  · simp
  · intro i h1 h2
    simp only [List.getElem_map, List.getElem_range]
    exact List.getD_eq_getElem l 0 h2

/-- The scatter loop writes the value of row i into the slot of the basic
variable of row i, provided basicIndex has no repeats. -/
theorem scatter_at_key (n : Nat) (bi : List Nat) (hlen : bi.length = n)
    (hnd : bi.Nodup) (val base : Nat → ℚ) {i : Nat} (hi : i < n) :
    ((List.range n).foldl
        (fun w r => Function.update w (bi.getD r 0) (val r)) base)
      (bi.getD i 0) = val i := by
  subst hlen
  rw [scatter_eq_pairs]
  apply foldl_update_nodup
  · have hmap :
        ((List.range bi.length).map (fun r => (bi.getD r 0, val r))).map Prod.fst
          = bi := by
      rw [List.map_map]
      exact range_map_getD bi
    rw [hmap]
    exact hnd
  · exact List.mem_map.mpr ⟨i, List.mem_range.mpr hi, rfl⟩

/-- The scatter loop leaves every nonbasic slot unchanged. -/
theorem scatter_not_key (n : Nat) (bi : List Nat) (hlen : bi.length = n)
    (val base : Nat → ℚ) {v : Nat} (hv : v ∉ bi) :
    ((List.range n).foldl
        (fun w r => Function.update w (bi.getD r 0) (val r)) base) v
      = base v := by
  subst hlen
  rw [scatter_eq_pairs]
  apply foldl_update_not_mem
  intro pr hpr
  rcases List.mem_map.mp hpr with ⟨r, hr, rfl⟩
  intro h
  apply hv
  rw [← h]
  have hrl : r < bi.length := List.mem_range.mp hr
  rw [List.getD_eq_getElem bi 0 hrl]
  exact List.getElem_mem hrl

/-- Reading position j of a mapped range by getD evaluates the map. -/
theorem getD_map_range {n j : Nat} (f : Nat → ℚ) (hj : j < n) :
    ((List.range n).map f).getD j 0 = f j := by
  rw [List.getD_eq_getElem _ 0 (by simpa using hj)]
  simp

/-- Claim C10: getSolution reports each column value as the work value of
the column, with basic entries overwritten by the base value of their row
via basicIndex; each row value as the negation of the (scattered) work
value of the logical of the row; and each dual multiplied by the
objective sense, with the dual of every basic variable reported as
exactly zero. -/
theorem getSolution_spec (s : EkkState)
    (hlen : s.basis.basicIndex.length = s.numRow)
    (hnd : s.basis.basicIndex.Nodup) :
    (∀ j < s.numCol, j ∉ s.basis.basicIndex →
      (getSolution s).col_value.getD j 0 = s.info.workValue j ∧
      (getSolution s).col_dual.getD j 0 = (s.sense : ℚ) * s.info.workDual j) ∧
    (∀ j < s.numCol, ∀ i < s.numRow, s.basis.basicIndex.getD i 0 = j →
      (getSolution s).col_value.getD j 0 = s.info.baseValue i ∧
      (getSolution s).col_dual.getD j 0 = 0) ∧
    (∀ i < s.numRow, (s.numCol + i) ∉ s.basis.basicIndex →
      (getSolution s).row_value.getD i 0 = -(s.info.workValue (s.numCol + i)) ∧
      (getSolution s).row_dual.getD i 0
        = (s.sense : ℚ) * s.info.workDual (s.numCol + i)) ∧
    (∀ i < s.numRow, ∀ k < s.numRow,
      s.basis.basicIndex.getD k 0 = s.numCol + i →
      (getSolution s).row_value.getD i 0 = -(s.info.baseValue k) ∧
      (getSolution s).row_dual.getD i 0 = 0) := by
  refine ⟨?_, ?_, ?_, ?_⟩
  · intro j hj hjn
    constructor
    · show ((List.range s.numCol).map (fun iCol => scatteredWorkValue s iCol)).getD j 0 = _
      rw [getD_map_range _ hj]
      exact scatter_not_key s.numRow _ hlen _ _ hjn
    · show ((List.range s.numCol).map
          (fun iCol => (s.sense : ℚ) * scatteredWorkDual s iCol)).getD j 0 = _
      rw [getD_map_range _ hj]
      rw [show scatteredWorkDual s j = s.info.workDual j from
        scatter_not_key s.numRow _ hlen _ _ hjn]
  · intro j hj i hi hbij
    constructor
    · show ((List.range s.numCol).map (fun iCol => scatteredWorkValue s iCol)).getD j 0 = _
      rw [getD_map_range _ hj, ← hbij]
      exact scatter_at_key s.numRow _ hlen hnd _ _ hi
    · show ((List.range s.numCol).map
          (fun iCol => (s.sense : ℚ) * scatteredWorkDual s iCol)).getD j 0 = _
      rw [getD_map_range _ hj, ← hbij]
      rw [show scatteredWorkDual s (s.basis.basicIndex.getD i 0) = 0 from
        scatter_at_key s.numRow _ hlen hnd _ _ hi]
      ring
  · intro i hi hin
    constructor
    · show ((List.range s.numRow).map
          (fun iRow => -(scatteredWorkValue s (s.numCol + iRow)))).getD i 0 = _
      rw [getD_map_range _ hi]
      rw [show scatteredWorkValue s (s.numCol + i) = s.info.workValue (s.numCol + i) from
        scatter_not_key s.numRow _ hlen _ _ hin]
    · show ((List.range s.numRow).map
          (fun iRow => (s.sense : ℚ) * scatteredWorkDual s (s.numCol + iRow))).getD i 0 = _
      rw [getD_map_range _ hi]
      rw [show scatteredWorkDual s (s.numCol + i) = s.info.workDual (s.numCol + i) from
        scatter_not_key s.numRow _ hlen _ _ hin]
  · intro i hi k hk hbik
    constructor
    · show ((List.range s.numRow).map
          (fun iRow => -(scatteredWorkValue s (s.numCol + iRow)))).getD i 0 = _
      rw [getD_map_range _ hi, ← hbik]
      rw [show scatteredWorkValue s (s.basis.basicIndex.getD k 0) = s.info.baseValue k from
        scatter_at_key s.numRow _ hlen hnd _ _ hk]
    · show ((List.range s.numRow).map
          (fun iRow => (s.sense : ℚ) * scatteredWorkDual s (s.numCol + iRow))).getD i 0 = _
      rw [getD_map_range _ hi, ← hbik]
      rw [show scatteredWorkDual s (s.basis.basicIndex.getD k 0) = 0 from
        scatter_at_key s.numRow _ hlen hnd _ _ hk]
      ring

/-- Witness for claim C10 at the concrete one-column one-row state: the
nonbasic column reports its work value and the basic logical of the row
reports a zero dual. -/
theorem getSolution_spec_witness :
    (getSolution ekkStateW).col_value.getD 0 0 = 0 ∧
    (getSolution ekkStateW).row_dual.getD 0 0 = 0 :=
  ⟨((getSolution_spec ekkStateW rfl (by decide)).1 0 (by decide) (by decide)).1,
   ((getSolution_spec ekkStateW rfl (by decide)).2.2.2 0 (by decide) 0
      (by decide) (by decide)).2⟩

/-- High-level basis status of a column or row (HighsBasisStatus). -/
inductive HighsBasisStatus
  | kLower
  | kBasic
  | kUpper
  | kZero
  | kNonbasic
deriving DecidableEq

/-- List-backed view of the three SimplexBasis arrays, used by the
interface-layer operations where vector resizing matters. -/
structure SimplexBasisArrays where
  nonbasicFlag : List Int
  nonbasicMove : List Int
  basicIndex : List Nat
deriving DecidableEq

/-- Model of std::vector::resize: keep the first k entries, pad with the
default value when growing. -/
def resizeList {α : Type} (l : List α) (k : Nat) (d : α) : List α :=
  l.take k ++ List.replicate (k - l.length) d

/-- The slice of Highs state visible to the basis-append interface
operations: dimensions, high-level basis, and simplex basis arrays. -/
structure InterfaceBasisState where
  num_col : Nat
  num_row : Nat
  basis_valid : Bool
  col_status : List HighsBasisStatus
  row_status : List HighsBasisStatus
  has_simplex_basis : Bool
  simplex : SimplexBasisArrays
deriving DecidableEq

/-- Translation of Highs::appendBasicRowsToBasisInterface: for a valid
basis, resize the row statuses and mark the new rows basic; when a simplex
basis is present, resize its three arrays and, for each new row, flag its
logical basic with zero move and install it in basicIndex.  The row count
itself is incremented later by the caller (addRowsInterface). -/
def appendBasicRowsToBasisInterface (st : InterfaceBasisState)
    (ext_num_new_row : Nat) : InterfaceBasisState :=
  if !st.basis_valid then st
  else if ext_num_new_row = 0 then st
  else
    let newNumRow := st.num_row + ext_num_new_row
    -- Add the new rows to the Highs basis
    let row_status :=
      (List.range' st.num_row ext_num_new_row).foldl
        (fun l iRow => l.set iRow HighsBasisStatus.kBasic)
        (resizeList st.row_status newNumRow HighsBasisStatus.kLower)
    if st.has_simplex_basis then
      -- Add the new rows to the simplex basis
      let newNumTot := st.num_col + newNumRow
      let nonbasicFlag0 := resizeList st.simplex.nonbasicFlag newNumTot 0
      let nonbasicMove0 := resizeList st.simplex.nonbasicMove newNumTot 0
      let basicIndex0 := resizeList st.simplex.basicIndex newNumRow 0
      let nonbasicFlag :=
        (List.range' st.num_row ext_num_new_row).foldl
          (fun l iRow => l.set (st.num_col + iRow) kNonbasicFlagFalse)
          nonbasicFlag0
      let nonbasicMove :=
        (List.range' st.num_row ext_num_new_row).foldl
          (fun l iRow => l.set (st.num_col + iRow) 0) nonbasicMove0
      let basicIndex :=
        (List.range' st.num_row ext_num_new_row).foldl
          (fun l iRow => l.set iRow (st.num_col + iRow)) basicIndex0
      { st with
        row_status := row_status
        simplex :=
          { nonbasicFlag := nonbasicFlag
            nonbasicMove := nonbasicMove
            basicIndex := basicIndex } }
    else
      { st with row_status := row_status }

/-- A fold of sets at positions a, a+1, ..., a+n-1 over a list whose first
a entries are fixed replaces the padded tail by the written values. -/
theorem foldl_set_tail {α : Type} (f : Nat → α) (d : α) :
    ∀ (n a : Nat) (l : List α), l.length = a →
      ((List.range' a n).foldl (fun t i => t.set i (f i))
          (l ++ List.replicate n d))
        = l ++ (List.range' a n).map f := by
  intro n
  induction n with
  | zero => intro a l hl; simp
  | succ n ih =>
      intro a l hl
      rw [List.range'_succ]
      simp only [List.foldl_cons, List.map_cons]
      have hset : (l ++ List.replicate (n + 1) d).set a (f a)
          = (l ++ [f a]) ++ List.replicate n d := by
        rw [List.set_append]
        simp [hl, List.replicate_succ]
      rw [hset, ih (a + 1) (l ++ [f a]) (by simp [hl])]
      simp

/-- Growing a list by resize appends default padding. -/
theorem resizeList_grow {α : Type} (l : List α) (k : Nat) (d : α)
    (hk : l.length ≤ k) : resizeList l k d = l ++ List.replicate (k - l.length) d := by
  rw [resizeList, List.take_of_length_le hk]

/-- Concrete interface state with one column and three rows; the column
and the logicals of rows 0 and 2 are basic, the logical of row 1 is
nonbasic at its lower bound. -/
def ifaceStateW : InterfaceBasisState :=
  { num_col := 1
    num_row := 3
    basis_valid := true
    col_status := [HighsBasisStatus.kBasic]
    row_status :=
      [HighsBasisStatus.kBasic, HighsBasisStatus.kLower, HighsBasisStatus.kBasic]
    has_simplex_basis := true
    simplex :=
      { nonbasicFlag := [0, 0, 1, 0]
        nonbasicMove := [0, 0, -1, 0]
        basicIndex := [1, 0, 3] } }

/-- Counterexample to claim C3 as stated: with num_col = 1 and the basic
slacks of rows 0 and 2 recorded as basicIndex entries 1 and 3, appending
two basic rows yields basicIndex [1, 0, 3, 4, 5]: the existing entries are
NOT shifted by 2 (which would give entries 3 and 5 and new slacks 6 and 7,
i.e. [3, 0, 5, 6, 7]). -/
theorem appendBasicRows_no_shift_counterexample :
    (appendBasicRowsToBasisInterface ifaceStateW 2).simplex.basicIndex
        = [1, 0, 3, 4, 5] ∧
    ¬ ((appendBasicRowsToBasisInterface ifaceStateW 2).simplex.basicIndex
        = [3, 0, 5, 6, 7]) := by
  decide

/-- Claim C3 (amended): after appendBasicRowsToBasisInterface adds n' rows
to a valid basis with a simplex basis present, every existing basicIndex
entry is unchanged (logical variable indices do not move, since new rows
are appended after the existing ones), every existing variable keeps its
nonbasicFlag and nonbasicMove values at its original index, and the n'
new slacks, with variable indices num_col+num_row+k, are appended as
basic: flag false, move zero, and basicIndex position num_row+k holding
num_col+num_row+k. -/
theorem appendBasicRows_spec (st : InterfaceBasisState) (n' : Nat)
    (hval : st.basis_valid = true) (hsb : st.has_simplex_basis = true)
    (hrs : st.row_status.length = st.num_row)
    (hf : st.simplex.nonbasicFlag.length = st.num_col + st.num_row)
    (hm : st.simplex.nonbasicMove.length = st.num_col + st.num_row)
    (hb : st.simplex.basicIndex.length = st.num_row) :
    (appendBasicRowsToBasisInterface st n').simplex.basicIndex
      = st.simplex.basicIndex
          ++ (List.range' st.num_row n').map (fun i => st.num_col + i) ∧
    (appendBasicRowsToBasisInterface st n').simplex.nonbasicFlag
      = st.simplex.nonbasicFlag ++ List.replicate n' kNonbasicFlagFalse ∧
    (appendBasicRowsToBasisInterface st n').simplex.nonbasicMove
      = st.simplex.nonbasicMove ++ List.replicate n' 0 ∧
    (appendBasicRowsToBasisInterface st n').row_status
      = st.row_status ++ List.replicate n' HighsBasisStatus.kBasic := by
  by_cases hz : n' = 0
  · subst hz
    simp [appendBasicRowsToBasisInterface, hval]
  · have hrs0 : resizeList st.row_status (st.num_row + n') HighsBasisStatus.kLower
        = st.row_status ++ List.replicate n' HighsBasisStatus.kLower := by
      rw [resizeList_grow _ _ _ (by omega)]
      congr 1
      rw [hrs]
      congr 1
      omega
    have hf0 : resizeList st.simplex.nonbasicFlag (st.num_col + (st.num_row + n')) 0
        = st.simplex.nonbasicFlag ++ List.replicate n' (0 : Int) := by
      rw [resizeList_grow _ _ _ (by omega)]
      congr 1
      rw [hf]
      congr 1
      omega
    have hm0 : resizeList st.simplex.nonbasicMove (st.num_col + (st.num_row + n')) 0
        = st.simplex.nonbasicMove ++ List.replicate n' (0 : Int) := by
      rw [resizeList_grow _ _ _ (by omega)]
      congr 1
      rw [hm]
      congr 1
      omega
    have hb0 : resizeList st.simplex.basicIndex (st.num_row + n') 0
        = st.simplex.basicIndex ++ List.replicate n' 0 := by
      rw [resizeList_grow _ _ _ (by omega)]
      congr 1
      rw [hb]
      congr 1
      omega
    have hshiftFlag :
        (List.range' st.num_row n').foldl
            (fun (l : List Int) iRow => l.set (st.num_col + iRow) kNonbasicFlagFalse)
            (st.simplex.nonbasicFlag ++ List.replicate n' 0)
          = st.simplex.nonbasicFlag ++ List.replicate n' kNonbasicFlagFalse := by
      have hmap := List.map_add_range' st.num_col st.num_row n' 1
      calc
        (List.range' st.num_row n').foldl
            (fun (l : List Int) iRow => l.set (st.num_col + iRow) kNonbasicFlagFalse)
            (st.simplex.nonbasicFlag ++ List.replicate n' 0)
            = ((List.range' st.num_row n').map (fun x => st.num_col + x)).foldl
                (fun (l : List Int) j => l.set j kNonbasicFlagFalse)
                (st.simplex.nonbasicFlag ++ List.replicate n' 0) := by
              rw [List.foldl_map]
        _ = (List.range' (st.num_col + st.num_row) n').foldl
              (fun (l : List Int) j => l.set j kNonbasicFlagFalse)
              (st.simplex.nonbasicFlag ++ List.replicate n' 0) := by rw [hmap]
        _ = st.simplex.nonbasicFlag
              ++ (List.range' (st.num_col + st.num_row) n').map
                  (fun _ => kNonbasicFlagFalse) :=
            foldl_set_tail (fun _ : Nat => kNonbasicFlagFalse) (0 : Int) n'
              (st.num_col + st.num_row) st.simplex.nonbasicFlag hf
        _ = st.simplex.nonbasicFlag ++ List.replicate n' kNonbasicFlagFalse := by
            congr 1
            rw [show (fun _ : Nat => kNonbasicFlagFalse)
                = Function.const Nat kNonbasicFlagFalse from rfl, List.map_const,
              List.length_range']
    have hshiftMove :
        (List.range' st.num_row n').foldl
            (fun (l : List Int) iRow => l.set (st.num_col + iRow) 0)
            (st.simplex.nonbasicMove ++ List.replicate n' 0)
          = st.simplex.nonbasicMove ++ List.replicate n' 0 := by
      have hmap := List.map_add_range' st.num_col st.num_row n' 1
      calc
        (List.range' st.num_row n').foldl
            (fun (l : List Int) iRow => l.set (st.num_col + iRow) 0)
            (st.simplex.nonbasicMove ++ List.replicate n' 0)
            = ((List.range' st.num_row n').map (fun x => st.num_col + x)).foldl
                (fun (l : List Int) j => l.set j 0)
                (st.simplex.nonbasicMove ++ List.replicate n' 0) := by
              rw [List.foldl_map]
        _ = (List.range' (st.num_col + st.num_row) n').foldl
              (fun (l : List Int) j => l.set j 0)
              (st.simplex.nonbasicMove ++ List.replicate n' 0) := by rw [hmap]
        _ = st.simplex.nonbasicMove
              ++ (List.range' (st.num_col + st.num_row) n').map
                  (fun _ => (0 : Int)) :=
            foldl_set_tail (fun _ : Nat => (0 : Int)) (0 : Int) n'
              (st.num_col + st.num_row) st.simplex.nonbasicMove hm
        _ = st.simplex.nonbasicMove ++ List.replicate n' 0 := by
            congr 1
            rw [show (fun _ : Nat => (0 : Int)) = Function.const Nat (0 : Int) from rfl,
              List.map_const, List.length_range']
    have hbi :
        (List.range' st.num_row n').foldl
            (fun (l : List Nat) iRow => l.set iRow (st.num_col + iRow))
            (st.simplex.basicIndex ++ List.replicate n' 0)
          = st.simplex.basicIndex
              ++ (List.range' st.num_row n').map (fun i => st.num_col + i) :=
      foldl_set_tail (fun i => st.num_col + i) 0 n' st.num_row
        st.simplex.basicIndex hb
    have hrow :
        (List.range' st.num_row n').foldl
            (fun (l : List HighsBasisStatus) iRow => l.set iRow HighsBasisStatus.kBasic)
            (st.row_status ++ List.replicate n' HighsBasisStatus.kLower)
          = st.row_status ++ List.replicate n' HighsBasisStatus.kBasic := by
      have := foldl_set_tail (fun _ : Nat => HighsBasisStatus.kBasic)
        HighsBasisStatus.kLower n' st.num_row st.row_status hrs
      rw [this]
      congr 1
      rw [show (fun _ : Nat => HighsBasisStatus.kBasic)
          = Function.const Nat HighsBasisStatus.kBasic from rfl, List.map_const,
        List.length_range']
    simp only [appendBasicRowsToBasisInterface, hval, hsb, hz, Bool.not_true,
      Bool.false_eq_true, if_false, if_true, ite_false, ite_true]
    rw [hrs0, hf0, hm0, hb0]
    exact ⟨hbi, hshiftFlag, hshiftMove, hrow⟩

/-- Witness for claim C3 (amended) at the concrete three-row state. -/
theorem appendBasicRows_spec_witness :
    (appendBasicRowsToBasisInterface ifaceStateW 2).simplex.basicIndex
      = [1, 0, 3, 4, 5] := by
  have h := (appendBasicRows_spec ifaceStateW 2 rfl rfl rfl rfl rfl rfl).1
  simpa using h

/-- State of the backtracking mechanism of HEkk around computeFactor:
the current simplex basis (represented by its basicIndex ordering and
flags), the perturbation data saved with a snapshot, the update counter
and limit, and the dual edge-weight buffers.  A factorization oracle of
type List Nat -> Nat x List Nat stands for HFactor::build: given the
basic variable ordering it returns the rank deficiency together with the
(possibly permuted, possibly logically repaired) ordering it leaves in
basicIndex. -/
structure BtState where
  basis : SimplexBasisArrays
  costs_perturbed : Bool
  workShift : Nat → ℚ
  update_count : Nat
  update_limit : Nat
  backtracking : Bool
  valid_backtracking_basis : Bool
  backtracking_basis : SimplexBasisArrays
  backtracking_basis_costs_perturbed : Bool
  backtracking_basis_workShift : Nat → ℚ
  backtracking_basis_edge_weights : Nat → ℚ
  workEdWt : Option (Nat → ℚ)
  workEdWtFull : Nat → ℚ

/-- Translation of HEkk::computeFactor restricted to the data of BtState:
run the factorization oracle on the current basic ordering and reset the
update count to zero. -/
def computeFactor (factorRank : List Nat → Nat × List Nat) (s : BtState) :
    Nat × BtState :=
  let r := factorRank s.basis.basicIndex
  (r.1,
   { s with
     basis := { s.basis with basicIndex := r.2 }
     update_count := 0 })

/-- Edge-weight scatter of HEkk::getNonsingularInverse: the weight of each
row is stored in the full-length buffer at the slot of the basic variable
of the row. -/
def scatterEdgeWeights (numRow : Nat) (bi : List Nat) (wt full : Nat → ℚ) :
    Nat → ℚ :=
  (List.range numRow).foldl
    (fun f i => Function.update f (bi.getD i 0) (wt i)) full

/-- Edge-weight gather of HEkk::getNonsingularInverse: each row reads its
weight back from the full-length buffer at the slot of its (possibly
permuted) basic variable. -/
def gatherEdgeWeights (numRow : Nat) (bi : List Nat) (full wt : Nat → ℚ) :
    Nat → ℚ :=
  (List.range numRow).foldl
    (fun f i => Function.update f i (full (bi.getD i 0))) wt

/-- Translation of HEkk::getBacktrackingBasis: fail if no snapshot is
valid; otherwise restore the snapshotted simplex basis, perturbation flag,
cost shifts, and (when edge weights are handled) the scattered edge
weights. -/
def getBacktrackingBasis (handle_edge_weights : Bool) (s : BtState) :
    Bool × BtState :=
  if !s.valid_backtracking_basis then (false, s)
  else
    (true,
     { s with
       basis := s.backtracking_basis
       costs_perturbed := s.backtracking_basis_costs_perturbed
       workShift := s.backtracking_basis_workShift
       workEdWtFull :=
         if handle_edge_weights then s.backtracking_basis_edge_weights
         else s.workEdWtFull })

/-- Translation of the two-argument HEkk::putBacktrackingBasis: validate
and fill the snapshot from the current state, with basicIndex taken from
the ordering saved before the factorization. -/
def putBacktrackingBasis (handle_edge_weights : Bool)
    (basicIndex_before : List Nat) (s : BtState) : BtState :=
  { s with
    valid_backtracking_basis := true
    backtracking_basis := { s.basis with basicIndex := basicIndex_before }
    backtracking_basis_costs_perturbed := s.costs_perturbed
    backtracking_basis_workShift := s.workShift
    backtracking_basis_edge_weights :=
      if handle_edge_weights then s.workEdWtFull
      else s.backtracking_basis_edge_weights }

/-- Translation of HEkk::getNonsingularInverse (the artificial
rank-deficiency testing block, which is compiled behind a constant false,
is dropped, and with it the solve_phase argument it alone used; the
updateSimplexLpStatus call only clears derived-data flags outside this
state).  It saves the pre-factorization basic ordering and update count,
scatters edge weights when present, factorizes, and on rank deficiency
backtracks to the snapshot: failure when there is no valid snapshot, when
the restored basis fails to factorize, or when at most one update had
been performed; otherwise the update limit becomes half the update count.
On a full-rank factorization the snapshot is refreshed and the update
limit is reset to its option value. -/
def getNonsingularInverse (factorRank : List Nat → Nat × List Nat)
    (options_update_limit numRow : Nat) (s : BtState) : Bool × BtState :=
  let basicIndex_before_compute_factor := s.basis.basicIndex
  let simplex_update_count := s.update_count
  let handle_edge_weights := s.workEdWt.isSome
  let s1 :=
    match s.workEdWt with
    | some wt =>
        { s with
          workEdWtFull :=
            scatterEdgeWeights numRow s.basis.basicIndex wt s.workEdWtFull }
    | none => s
  let fr := computeFactor factorRank s1
  let rank_deficiency := fr.1
  if rank_deficiency ≠ 0 then
    -- Rank deficient basis, so backtrack to last full rank basis
    let g := getBacktrackingBasis handle_edge_weights fr.2
    if !g.1 then (false, g.2)
    else
      let s3 := { g.2 with backtracking := true }
      let brf := computeFactor factorRank s3
      if brf.1 ≠ 0 then (false, brf.2)
      else if simplex_update_count ≤ 1 then (false, brf.2)
      else
        let s4 := { brf.2 with update_limit := simplex_update_count / 2 }
        let s5 :=
          match s.workEdWt with
          | some wt =>
              { s4 with
                workEdWt :=
                  some (gatherEdgeWeights numRow s4.basis.basicIndex
                    s4.workEdWtFull wt) }
          | none => s4
        (true, s5)
  else
    -- Current basis is full rank so save it
    let s3 := putBacktrackingBasis handle_edge_weights
      basicIndex_before_compute_factor fr.2
    let s4 := { s3 with
      backtracking := false
      update_limit := options_update_limit }
    let s5 :=
      match s.workEdWt with
      | some wt =>
          { s4 with
            workEdWt :=
              some (gatherEdgeWeights numRow s4.basis.basicIndex
                s4.workEdWtFull wt) }
      | none => s4
    (true, s5)

/-- Concrete nonsingular basis arrays used by the backtracking witness. -/
def btBasisA : SimplexBasisArrays :=
  { nonbasicFlag := [1, 0], nonbasicMove := [0, 0], basicIndex := [0] }

/-- Concrete snapshot basis arrays used by the backtracking witness. -/
def btBasisB : SimplexBasisArrays :=
  { nonbasicFlag := [0, 1], nonbasicMove := [0, 0], basicIndex := [1] }

/-- Concrete factorization oracle: the ordering of btBasisB is full rank,
any other ordering has rank deficiency one; no permutation. -/
def frW : List Nat → Nat × List Nat := fun b => (if b = [1] then 0 else 1, b)

/-- Concrete backtracking state: current basis singular under frW, valid
full-rank snapshot, ten updates performed, update limit 5000, no dual
edge weights. -/
def btStateW : BtState :=
  { basis := btBasisA
    costs_perturbed := false
    workShift := fun _ => 0
    update_count := 10
    update_limit := 5000
    backtracking := false
    valid_backtracking_basis := true
    backtracking_basis := btBasisB
    backtracking_basis_costs_perturbed := false
    backtracking_basis_workShift := fun _ => 0
    backtracking_basis_edge_weights := fun _ => 0
    workEdWt := none
    workEdWtFull := fun _ => 0 }

/-- Counterexample to claim C4 as stated: on rank deficiency after ten
updates with update limit 5000, the engine continues successfully but the
new update limit is 10/2 = 5, not the halved limit 5000/2 = 2500: the
limit is set to half the number of updates performed, not halved. -/
theorem getNonsingularInverse_limit_counterexample :
    (getNonsingularInverse frW 5000 1 btStateW).1 = true ∧
    btStateW.update_limit = 5000 ∧
    (getNonsingularInverse frW 5000 1 btStateW).2.update_limit = 5 ∧
    (5 : Nat) ≠ 5000 / 2 := by
  refine ⟨rfl, rfl, rfl, by decide⟩

/-- Claim C4 (amended): whenever the factorization reports rank
deficiency, the engine restores the snapshotted last full-rank basis,
refactors it (which must succeed), sets the update limit to half the
number of simplex updates performed since the last factorization, and
continues; getNonsingularInverse returns failure exactly when the
factorization was rank deficient and the snapshot is unavailable, or the
restored basis is itself singular, or at most one simplex update had been
performed.  On a full-rank factorization it succeeds, refreshes the
snapshot with the pre-factorization ordering, and resets the update limit
to its option value. -/
theorem getNonsingularInverse_spec (factorRank : List Nat → Nat × List Nat)
    (optLimit numRow : Nat) (s : BtState) :
    ((getNonsingularInverse factorRank optLimit numRow s).1 = false ↔
      ((factorRank s.basis.basicIndex).1 ≠ 0 ∧
        (s.valid_backtracking_basis = false ∨
         (factorRank s.backtracking_basis.basicIndex).1 ≠ 0 ∨
         s.update_count ≤ 1))) ∧
    ((factorRank s.basis.basicIndex).1 ≠ 0 →
      s.valid_backtracking_basis = true →
      (factorRank s.backtracking_basis.basicIndex).1 = 0 →
      1 < s.update_count →
      (getNonsingularInverse factorRank optLimit numRow s).2.update_limit
          = s.update_count / 2 ∧
      (getNonsingularInverse factorRank optLimit numRow s).2.backtracking
          = true ∧
      (getNonsingularInverse factorRank optLimit numRow s).2.basis.basicIndex
          = (factorRank s.backtracking_basis.basicIndex).2 ∧
      (getNonsingularInverse factorRank optLimit numRow s).2.costs_perturbed
          = s.backtracking_basis_costs_perturbed) ∧
    ((factorRank s.basis.basicIndex).1 = 0 →
      (getNonsingularInverse factorRank optLimit numRow s).1 = true ∧
      (getNonsingularInverse factorRank optLimit numRow s).2.update_limit
          = optLimit ∧
      (getNonsingularInverse factorRank optLimit numRow s).2.valid_backtracking_basis
          = true ∧
      (getNonsingularInverse factorRank optLimit numRow s).2.backtracking_basis.basicIndex
          = s.basis.basicIndex) := by
  cases hw : s.workEdWt with
  | none =>
      by_cases hrd : (factorRank s.basis.basicIndex).1 = 0
      · simp [getNonsingularInverse, computeFactor, getBacktrackingBasis,
          putBacktrackingBasis, hw, hrd]
      · by_cases hvb : s.valid_backtracking_basis
        · by_cases hbrf : (factorRank s.backtracking_basis.basicIndex).1 = 0
          · by_cases hcnt : s.update_count ≤ 1
            · simp [getNonsingularInverse, computeFactor, getBacktrackingBasis,
                hw, hrd, hvb, hbrf, hcnt]
            · simp [getNonsingularInverse, computeFactor, getBacktrackingBasis,
                hw, hrd, hvb, hbrf, hcnt]
          · simp [getNonsingularInverse, computeFactor, getBacktrackingBasis,
              hw, hrd, hvb, hbrf]
        · simp [getNonsingularInverse, computeFactor, getBacktrackingBasis,
            hw, hrd, hvb]
  | some wt =>
      by_cases hrd : (factorRank s.basis.basicIndex).1 = 0
      · simp [getNonsingularInverse, computeFactor, getBacktrackingBasis,
          putBacktrackingBasis, scatterEdgeWeights, hw, hrd]
      · by_cases hvb : s.valid_backtracking_basis
        · by_cases hbrf : (factorRank s.backtracking_basis.basicIndex).1 = 0
          · by_cases hcnt : s.update_count ≤ 1
            · simp [getNonsingularInverse, computeFactor, getBacktrackingBasis,
                scatterEdgeWeights, hw, hrd, hvb, hbrf, hcnt]
            · simp [getNonsingularInverse, computeFactor, getBacktrackingBasis,
                scatterEdgeWeights, hw, hrd, hvb, hbrf, hcnt]
          · simp [getNonsingularInverse, computeFactor, getBacktrackingBasis,
              scatterEdgeWeights, hw, hrd, hvb, hbrf]
        · simp [getNonsingularInverse, computeFactor, getBacktrackingBasis,
            scatterEdgeWeights, hw, hrd, hvb]

/-- Witness for claim C4 (amended) at the concrete backtracking state:
the rank-deficient factorization backtracks to the snapshot and the
update limit becomes 10/2 = 5. -/
theorem getNonsingularInverse_spec_witness :
    (getNonsingularInverse frW 5000 1 btStateW).2.update_limit = 5 ∧
    (getNonsingularInverse frW 5000 1 btStateW).2.backtracking = true := by
  have h := (getNonsingularInverse_spec frW 5000 1 btStateW).2.1
    (by decide) (by decide) (by decide) (by decide)
  exact ⟨h.1, h.2.1⟩

/-- Translation of HEkk::flipBound: negate the nonbasic move of the
variable and set its work value to the lower bound when the new move is
up, to the upper bound otherwise. -/
def flipBound (s : EkkState) (iCol : Nat) : EkkState :=
  let move := -(s.basis.nonbasicMove iCol)
  { s with
    basis :=
      { s.basis with
        nonbasicMove := Function.update s.basis.nonbasicMove iCol move }
    info :=
      { s.info with
        workValue :=
          Function.update s.info.workValue iCol
            (if move = 1 then s.info.workLower iCol
             else s.info.workUpper iCol) } }

/-- Accumulators threaded through the correctDual loop, together with the
engine state and a counter into the random stream. -/
structure CorrectDualAcc where
  st : EkkState
  workCount : Nat
  flip_dual_objective_value_change : ℚ
  shift_dual_objective_value_change : ℚ
  num_flip : Nat
  num_shift : Nat
  sum_flip : ℚ
  sum_shift : ℚ
  num_shift_skipped : Nat
  rngIdx : Nat

/-- Loop body of HEkk::correctDual for one variable: free variables with
large duals are merely counted; a dual-infeasible boxed variable is
flipped, accumulating the flip objective change; other dual-infeasible
variables get a cost shift when perturbation is allowed and are otherwise
recorded as skipped.  The per-engine random stream is modelled by the
stream rng read at successive indices. -/
def correctDualStep (tau_d : ℚ) (rng : Nat → ℚ) (a : CorrectDualAcc)
    (i : Nat) : CorrectDualAcc :=
  let s := a.st
  if s.basis.nonbasicFlag i ≠ 0 then
    if s.info.workLower i = -kHighsInf ∧ s.info.workUpper i = kHighsInf then
      -- FREE variable
      { a with
        workCount :=
          a.workCount + (if tau_d ≤ |s.info.workDual i| then 1 else 0) }
    else if (s.basis.nonbasicMove i : ℚ) * s.info.workDual i ≤ -tau_d then
      if s.info.workLower i ≠ -kHighsInf ∧ s.info.workUpper i ≠ kHighsInf
      then
        -- Boxed variable = flip
        let move := s.basis.nonbasicMove i
        let s1 := flipBound s i
        let flip := s1.info.workUpper i - s1.info.workLower i
        let local_dual_objective_change :=
          (move : ℚ) * flip * s1.info.workDual i * s1.cost_scale
        { a with
          st := s1
          flip_dual_objective_value_change :=
            a.flip_dual_objective_value_change + local_dual_objective_change
          num_flip := a.num_flip + 1
          sum_flip := a.sum_flip + |flip| }
      else if s.info.allow_cost_perturbation then
        -- Other variable = shift
        let dual :=
          if s.basis.nonbasicMove i = 1 then (1 + rng a.rngIdx) * tau_d
          else -((1 + rng a.rngIdx) * tau_d)
        let shift := dual - s.info.workDual i
        let s1 :=
          { s with
            info :=
              { s.info with
                costs_perturbed := true
                workDual := Function.update s.info.workDual i dual
                workCost :=
                  Function.update s.info.workCost i
                    (s.info.workCost i + shift) } }
        let local_dual_objective_change :=
          shift * s.info.workValue i * s.cost_scale
        { a with
          st := s1
          shift_dual_objective_value_change :=
            a.shift_dual_objective_value_change + local_dual_objective_change
          num_shift := a.num_shift + 1
          sum_shift := a.sum_shift + |shift|
          rngIdx := a.rngIdx + 1 }
      else
        -- Shifting not permitted
        { a with num_shift_skipped := a.num_shift_skipped + 1 }
    else a
  else a

/-- Translation of HEkk::correctDual: run the loop body over all
variables; fail when any required cost shift was skipped. -/
def correctDual (tau_d : ℚ) (rng : Nat → ℚ) (s : EkkState) :
    Bool × CorrectDualAcc :=
  let a :=
    (List.range (s.numCol + s.numRow)).foldl (correctDualStep tau_d rng)
      { st := s
        workCount := 0
        flip_dual_objective_value_change := 0
        shift_dual_objective_value_change := 0
        num_flip := 0
        num_shift := 0
        sum_flip := 0
        sum_shift := 0
        num_shift_skipped := 0
        rngIdx := 0 }
  if a.num_shift_skipped ≠ 0 then (false, a)
  else (true, a)

/-- The correctDual loop body never changes the nonbasic flags, the
bounds, the cost scale, the perturbation permission, or the dimensions. -/
theorem correctDualStep_fixed (tau_d : ℚ) (rng : Nat → ℚ)
    (a : CorrectDualAcc) (j : Nat) :
    (correctDualStep tau_d rng a j).st.basis.nonbasicFlag
        = a.st.basis.nonbasicFlag ∧
    (correctDualStep tau_d rng a j).st.info.workLower = a.st.info.workLower ∧
    (correctDualStep tau_d rng a j).st.info.workUpper = a.st.info.workUpper ∧
    (correctDualStep tau_d rng a j).st.cost_scale = a.st.cost_scale ∧
    (correctDualStep tau_d rng a j).st.info.allow_cost_perturbation
        = a.st.info.allow_cost_perturbation ∧
    (correctDualStep tau_d rng a j).st.numCol = a.st.numCol ∧
    (correctDualStep tau_d rng a j).st.numRow = a.st.numRow := by
  unfold correctDualStep flipBound
  dsimp only
  split_ifs <;> simp

/-- The correctDual loop body touches the move, work value, dual and cost
only of the variable it visits. -/
theorem correctDualStep_other (tau_d : ℚ) (rng : Nat → ℚ)
    (a : CorrectDualAcc) {i j : Nat} (hij : j ≠ i) :
    (correctDualStep tau_d rng a j).st.basis.nonbasicMove i
        = a.st.basis.nonbasicMove i ∧
    (correctDualStep tau_d rng a j).st.info.workValue i
        = a.st.info.workValue i ∧
    (correctDualStep tau_d rng a j).st.info.workDual i
        = a.st.info.workDual i := by
  unfold correctDualStep flipBound
  dsimp only
  split_ifs <;> simp [Function.update, Ne.symm hij]

/-- Folding the correctDual body over any visit list preserves the
globally fixed data. -/
theorem correctDualFold_fixed (tau_d : ℚ) (rng : Nat → ℚ) (L : List Nat) :
    ∀ a : CorrectDualAcc,
    ((L.foldl (correctDualStep tau_d rng) a).st.basis.nonbasicFlag
        = a.st.basis.nonbasicFlag) ∧
    ((L.foldl (correctDualStep tau_d rng) a).st.info.workLower
        = a.st.info.workLower) ∧
    ((L.foldl (correctDualStep tau_d rng) a).st.info.workUpper
        = a.st.info.workUpper) ∧
    ((L.foldl (correctDualStep tau_d rng) a).st.cost_scale
        = a.st.cost_scale) := by
  induction L with
  | nil => intro a; exact ⟨rfl, rfl, rfl, rfl⟩
  | cons hd t ih =>
      intro a
      simp only [List.foldl_cons]
      obtain ⟨h1, h2, h3, h4⟩ := ih (correctDualStep tau_d rng a hd)
      obtain ⟨g1, g2, g3, g4, _, _, _⟩ :=
        correctDualStep_fixed tau_d rng a hd
      exact ⟨h1.trans g1, h2.trans g2, h3.trans g3, h4.trans g4⟩

/-- Folding the correctDual body over a visit list avoiding variable i
leaves the move, work value and dual of i unchanged. -/
theorem correctDualFold_other (tau_d : ℚ) (rng : Nat → ℚ) (L : List Nat) :
    ∀ (a : CorrectDualAcc) (i : Nat), i ∉ L →
    ((L.foldl (correctDualStep tau_d rng) a).st.basis.nonbasicMove i
        = a.st.basis.nonbasicMove i) ∧
    ((L.foldl (correctDualStep tau_d rng) a).st.info.workValue i
        = a.st.info.workValue i) ∧
    ((L.foldl (correctDualStep tau_d rng) a).st.info.workDual i
        = a.st.info.workDual i) := by
  induction L with
  | nil => intro a i _; exact ⟨rfl, rfl, rfl⟩
  | cons hd t ih =>
      intro a i hL
      have hdi : hd ≠ i := fun h => hL (h ▸ List.mem_cons_self _ _)
      have hti : i ∉ t := fun h => hL (List.mem_cons_of_mem _ h)
      simp only [List.foldl_cons]
      obtain ⟨h1, h2, h3⟩ := ih (correctDualStep tau_d rng a hd) i hti
      obtain ⟨g1, g2, g3⟩ := correctDualStep_other tau_d rng a hdi
      exact ⟨h1.trans g1, h2.trans g2, h3.trans g3⟩

/-- The correctDual loop body at a dual-infeasible boxed variable flips
that variable and accumulates exactly the flip objective change. -/
theorem correctDualStep_flip_at (tau_d : ℚ) (rng : Nat → ℚ)
    (a : CorrectDualAcc) (i : Nat)
    (hflag : a.st.basis.nonbasicFlag i ≠ 0)
    (hlow : a.st.info.workLower i ≠ -kHighsInf)
    (hupp : a.st.info.workUpper i ≠ kHighsInf)
    (hcond : (a.st.basis.nonbasicMove i : ℚ) * a.st.info.workDual i ≤ -tau_d) :
    (correctDualStep tau_d rng a i).st = flipBound a.st i ∧
    (correctDualStep tau_d rng a i).flip_dual_objective_value_change
      = a.flip_dual_objective_value_change
        + (a.st.basis.nonbasicMove i : ℚ)
          * (a.st.info.workUpper i - a.st.info.workLower i)
          * a.st.info.workDual i * a.st.cost_scale := by
  unfold correctDualStep
  rw [if_pos hflag, if_neg (fun h => hlow h.1), if_pos hcond,
    if_pos ⟨hlow, hupp⟩]
  constructor
  · rfl
  · simp [flipBound]

/-- Claim C5: in correctDual, every nonbasic boxed variable i (finite
workLower and workUpper) whose move times dual is at most -tau_d is
bound-flipped: in the final state its nonbasicMove is negated and its
workValue is set to the bound selected by the new move; and the flip
objective accumulator grows at the visit of i by exactly
move * (upper - lower) * dual * cost_scale, with move the pre-flip move
and dual the work dual of i. -/
theorem correctDual_boxed_flip (tau_d : ℚ) (rng : Nat → ℚ) (s : EkkState)
    (i : Nat) (hi : i < s.numCol + s.numRow)
    (hflag : s.basis.nonbasicFlag i ≠ 0)
    (hlow : s.info.workLower i ≠ -kHighsInf)
    (hupp : s.info.workUpper i ≠ kHighsInf)
    (hcond : (s.basis.nonbasicMove i : ℚ) * s.info.workDual i ≤ -tau_d) :
    ((correctDual tau_d rng s).2.st.basis.nonbasicMove i
        = -(s.basis.nonbasicMove i)) ∧
    ((correctDual tau_d rng s).2.st.info.workValue i
        = (if -(s.basis.nonbasicMove i) = 1 then s.info.workLower i
           else s.info.workUpper i)) ∧
    (∀ a : CorrectDualAcc,
      a.st.basis.nonbasicFlag i ≠ 0 →
      a.st.info.workLower i ≠ -kHighsInf →
      a.st.info.workUpper i ≠ kHighsInf →
      (a.st.basis.nonbasicMove i : ℚ) * a.st.info.workDual i ≤ -tau_d →
      (correctDualStep tau_d rng a i).flip_dual_objective_value_change
        = a.flip_dual_objective_value_change
          + (a.st.basis.nonbasicMove i : ℚ)
            * (a.st.info.workUpper i - a.st.info.workLower i)
            * a.st.info.workDual i * a.st.cost_scale) := by
  set a0 : CorrectDualAcc :=
    { st := s
      workCount := 0
      flip_dual_objective_value_change := 0
      shift_dual_objective_value_change := 0
      num_flip := 0
      num_shift := 0
      sum_flip := 0
      sum_shift := 0
      num_shift_skipped := 0
      rngIdx := 0 } with ha0
  have hsnd : (correctDual tau_d rng s).2
      = (List.range (s.numCol + s.numRow)).foldl (correctDualStep tau_d rng)
          a0 := by
    unfold correctDual
    dsimp only
    split_ifs <;> rfl
  have hsplit : List.range (s.numCol + s.numRow)
      = (List.range i ++ [i])
        ++ (List.range (s.numCol + s.numRow - (i + 1))).map
            (fun x => (i + 1) + x) := by
    conv_lhs => rw [show s.numCol + s.numRow
      = (i + 1) + (s.numCol + s.numRow - (i + 1)) by omega]
    rw [List.range_add, List.range_succ]
  set a1 := (List.range i).foldl (correctDualStep tau_d rng) a0 with ha1
  obtain ⟨hf1, hf2, hf3, hf4⟩ :=
    correctDualFold_fixed tau_d rng (List.range i) a0
  obtain ⟨ho1, ho2, ho3⟩ :=
    correctDualFold_other tau_d rng (List.range i) a0 i (by simp)
  have hstep := correctDualStep_flip_at tau_d rng a1 i
    (by rw [← ha1] at hf1; rw [hf1]; exact hflag)
    (by rw [← ha1] at hf2; rw [hf2]; exact hlow)
    (by rw [← ha1] at hf3; rw [hf3]; exact hupp)
    (by rw [← ha1] at ho1 ho3; rw [ho1, ho3]; exact hcond)
  have hnotmem : i ∉ (List.range (s.numCol + s.numRow - (i + 1))).map
      (fun x => (i + 1) + x) := by
    intro hm
    rcases List.mem_map.mp hm with ⟨x, _, hx⟩
    omega
  obtain ⟨ht1, ht2, ht3⟩ := correctDualFold_other tau_d rng
    ((List.range (s.numCol + s.numRow - (i + 1))).map (fun x => (i + 1) + x))
    (correctDualStep tau_d rng a1 i) i hnotmem
  have hassemble : (correctDual tau_d rng s).2
      = ((List.range (s.numCol + s.numRow - (i + 1))).map
          (fun x => (i + 1) + x)).foldl (correctDualStep tau_d rng)
          (correctDualStep tau_d rng a1 i) := by
    rw [hsnd, hsplit, List.foldl_append, List.foldl_append]
    rfl
  refine ⟨?_, ?_, fun a haf hal hau hac => (correctDualStep_flip_at
    tau_d rng a i haf hal hau hac).2⟩
  · rw [hassemble, ht1, hstep.1]
    show Function.update a1.st.basis.nonbasicMove i
      (-(a1.st.basis.nonbasicMove i)) i = _
    rw [Function.update_same]
    rw [← ha1] at ho1
    rw [ho1]
  · rw [hassemble, ht2, hstep.1]
    show Function.update a1.st.info.workValue i
      (if -(a1.st.basis.nonbasicMove i) = 1 then a1.st.info.workLower i
       else a1.st.info.workUpper i) i = _
    rw [Function.update_same]
    rw [← ha1] at ho1 hf2 hf3
    rw [ho1, hf2, hf3]

/-- Concrete state for the correctDual witness: the boxed column 0 (bounds
[0,1]) sits at its lower bound with dual -1. -/
def ekkStateFlip : EkkState :=
  { ekkStateW with
    info := { ekkStateW.info with workDual := fun _ => -1 } }

/-- Witness for claim C5 at the concrete state: with tolerance 1/2, the
dual-infeasible boxed column 0 is flipped to its upper bound. -/
theorem correctDual_boxed_flip_witness :
    ((correctDual (1 / 2) (fun _ => 0) ekkStateFlip).2.st.basis.nonbasicMove 0
        = -1) ∧
    ((correctDual (1 / 2) (fun _ => 0) ekkStateFlip).2.st.info.workValue 0
        = 1) := by
  have h := correctDual_boxed_flip (1 / 2) (fun _ => 0) ekkStateFlip 0
    (by decide) (by decide)
    (by show (0 : ℚ) ≠ -kHighsInf; rw [kHighsInf]; norm_num)
    (by show (1 : ℚ) ≠ kHighsInf; rw [kHighsInf]; norm_num)
    (by show ((1 : Int) : ℚ) * (-1) ≤ -(1 / 2); norm_num)
  refine ⟨?_, ?_⟩
  · rw [h.1]
    norm_num [ekkStateFlip, ekkStateW]
  · rw [h.2.1]
    norm_num [ekkStateFlip, ekkStateW]


/-- The literal 1e30 against which workRange is compared when counting
boxed variables in HEkk::initialiseCost. -/
def k1e30 : ℚ :=
  1000000000000000000000000000000

/-- Input data of HEkk::initialiseCost: LP costs and bounds, the work
ranges left by the previous bound initialisation, the per-variable random
fractions, and the cost perturbation multiplier option. -/
structure CostInit where
  numCol : Nat
  numRow : Nat
  sense : Int
  colCost : Nat → ℚ
  colLower : Nat → ℚ
  colUpper : Nat → ℚ
  workRange : Nat → ℚ
  numTotRandomValue : Nat → ℚ
  dual_simplex_cost_perturbation_multiplier : ℚ

/-- The bigc loop of HEkk::initialiseCost: maximum absolute working cost
over the columns (workCost is the sense-adjusted LP cost). -/
def maxAbsWorkCost (c : CostInit) : ℚ :=
  (List.range c.numCol).foldl
    (fun b i => max b |(c.sense : ℚ) * c.colCost i|) 0

/-- The boxedRate loop of HEkk::initialiseCost: the fraction of all
variables whose work range is below 1e30. -/
def boxedVariableRate (c : CostInit) : ℚ :=
  (((List.range (c.numCol + c.numRow)).countP
      (fun i => decide (c.workRange i < k1e30)) : Nat) : ℚ)
    / ((c.numCol + c.numRow : Nat) : ℚ)

/-- Perturbation base of HEkk::initialiseCost, following the source step
by step: shrink bigc by a double square root when above 100, cap it at 1
when the boxed rate is below one percent, then multiply by 5e-7.  The
floating square root is abstracted by the stream rsqrt. -/
def costPerturbationBase (rsqrt : ℚ → ℚ) (c : CostInit) : ℚ :=
  let bigc0 := maxAbsWorkCost c
  let bigc1 := if bigc0 > 100 then rsqrt (rsqrt bigc0) else bigc0
  let bigc2 := if boxedVariableRate c < 1 / 100 then min bigc1 1 else bigc1
  (5 / 10 ^ 7) * bigc2

/-- Translation of HEkk::initialiseCost: copy sense-adjusted costs (zero
for logicals), return them unperturbed for primal simplex or when
perturbation is off; otherwise perturb each column by a bound-directed
xpert built from the perturbation base, give logicals a tiny random
perturbation, and record that costs are perturbed.  The zeroing of
workShift is not modelled since no verified operation reads it here. -/
def initialiseCost (algIsPrimal perturb : Bool) (rsqrt : ℚ → ℚ)
    (c : CostInit) : (Nat → ℚ) × Bool :=
  let workCost : Nat → ℚ := fun i =>
    if i < c.numCol then (c.sense : ℚ) * c.colCost i else 0
  if algIsPrimal then (workCost, false)
  else if ¬perturb ∨ c.dual_simplex_cost_perturbation_multiplier = 0 then
    (workCost, false)
  else
    let base := costPerturbationBase rsqrt c
    let workCost1 : Nat → ℚ := fun i =>
      if i < c.numCol then
        let lower := c.colLower i
        let upper := c.colUpper i
        let xpert := (|workCost i| + 1) * base
          * c.dual_simplex_cost_perturbation_multiplier
          * (1 + c.numTotRandomValue i)
        if lower ≤ -kHighsInf ∧ kHighsInf ≤ upper then
          -- Free - no perturb
          workCost i
        else if kHighsInf ≤ upper then
          -- Lower
          workCost i + xpert
        else if lower ≤ -kHighsInf then
          -- Upper
          workCost i + -xpert
        else if lower ≠ upper then
          -- Boxed
          workCost i + (if 0 ≤ workCost i then xpert else -xpert)
        else
          -- Fixed - no perturb
          workCost i
      else
        workCost i
          + (1 / 2 - c.numTotRandomValue i)
            * c.dual_simplex_cost_perturbation_multiplier * (1 / 10 ^ 12)
    (workCost1, true)

/-- Statement of the base formula exactly as claim C6 words it: base is
5e-7 times shrink of the maximal cost, and when the boxed rate is below
one percent the BASE is capped at 1. -/
def claimedCostPerturbationBase (rsqrt : ℚ → ℚ) (c : CostInit) : ℚ :=
  let shrink := fun x : ℚ => if x ≤ 100 then x else rsqrt (rsqrt x)
  let b := (5 / 10 ^ 7) * shrink (maxAbsWorkCost c)
  if boxedVariableRate c < 1 / 100 then min b 1 else b

/-- Concrete cost-initialisation input for claim C6: one free column of
cost 16, one row, no boxed variable (rate zero), multiplier one. -/
def costInitW : CostInit :=
  { numCol := 1
    numRow := 1
    sense := 1
    colCost := fun _ => 16
    colLower := fun _ => -kHighsInf
    colUpper := fun _ => kHighsInf
    workRange := fun _ => kHighsInf + kHighsInf
    numTotRandomValue := fun _ => 0
    dual_simplex_cost_perturbation_multiplier := 1 }

/-- Counterexample to claim C6 as stated: with max cost 16 (no shrink)
and boxed rate zero, the code caps the shrink factor at 1 before the
multiplication, giving base 5e-7, whereas capping the base itself at 1 as
the claim says would leave 16 * 5e-7 = 8e-6. -/
theorem costPerturbationBase_counterexample :
    costPerturbationBase (fun x => x) costInitW = 5 / 10 ^ 7 ∧
    claimedCostPerturbationBase (fun x => x) costInitW = 16 * (5 / 10 ^ 7) ∧
    (5 / 10 ^ 7 : ℚ) ≠ 16 * (5 / 10 ^ 7) := by
  refine ⟨?_, ?_, by norm_num⟩
  · norm_num [costPerturbationBase, maxAbsWorkCost, boxedVariableRate,
      costInitW, kHighsInf, k1e30, List.range_succ]
  · norm_num [claimedCostPerturbationBase, maxAbsWorkCost, boxedVariableRate,
      costInitW, kHighsInf, k1e30, List.range_succ]

/-- Claim C6 (amended): for dual simplex with perturbation enabled, the
perturbation base equals 5e-7 times shrink(max abs cost), where shrink is
the identity when the maximum is at most 100 and the double square root
otherwise; whenever the boxed-variable rate is below one percent, the
SHRINK FACTOR is capped at 1 before the multiplication (so the base is
capped at 5e-7, not at 1); and a lower-bounded column then receives
exactly the perturbation (abs cost + 1) * base * multiplier *
(1 + random fraction). -/
theorem initialiseCost_perturbation_spec (rsqrt : ℚ → ℚ) (c : CostInit)
    (hmul : c.dual_simplex_cost_perturbation_multiplier ≠ 0) :
    (costPerturbationBase rsqrt c
      = (5 / 10 ^ 7)
        * (if boxedVariableRate c < 1 / 100
           then min (if maxAbsWorkCost c > 100
                     then rsqrt (rsqrt (maxAbsWorkCost c))
                     else maxAbsWorkCost c) 1
           else (if maxAbsWorkCost c > 100
                 then rsqrt (rsqrt (maxAbsWorkCost c))
                 else maxAbsWorkCost c))) ∧
    (∀ j < c.numCol, ¬(c.colLower j ≤ -kHighsInf) →
      kHighsInf ≤ c.colUpper j →
      (initialiseCost false true rsqrt c).1 j
        = (c.sense : ℚ) * c.colCost j
          + (|(c.sense : ℚ) * c.colCost j| + 1) * costPerturbationBase rsqrt c
            * c.dual_simplex_cost_perturbation_multiplier
            * (1 + c.numTotRandomValue j)) := by
  constructor
  · rfl
  · intro j hj hlow hupp
    simp only [initialiseCost, Bool.false_eq_true, if_false, not_true,
      false_or, hmul, ite_false]
    rw [if_pos hj, if_neg (fun h => hlow h.1), if_pos hupp]
    simp only [if_pos hj]

/-- Concrete cost-initialisation input with one lower-bounded column of
cost 16 used by the C6 witness. -/
def costInitLowW : CostInit :=
  { numCol := 1
    numRow := 1
    sense := 1
    colCost := fun _ => 16
    colLower := fun _ => 0
    colUpper := fun _ => kHighsInf
    workRange := fun _ => kHighsInf + kHighsInf
    numTotRandomValue := fun _ => 0
    dual_simplex_cost_perturbation_multiplier := 1 }

/-- Witness for claim C6 (amended) at the concrete lower-bounded column:
the cost 16 is perturbed upward by 17 times the base. -/
theorem initialiseCost_perturbation_spec_witness :
    (initialiseCost false true (fun x => x) costInitLowW).1 0
      = 16 + 17 * costPerturbationBase (fun x => x) costInitLowW := by
  have h := (initialiseCost_perturbation_spec (fun x => x) costInitLowW
    (by norm_num [costInitLowW])).2 0 (by norm_num [costInitLowW])
    (by norm_num [costInitLowW, kHighsInf]) (by norm_num [costInitLowW])
  rw [h]
  norm_num [costInitLowW]

/-- Tri-valued call status (HighsStatus). -/
inductive HStatus
  | kOk
  | kWarning
  | kError
deriving DecidableEq

/-- Model status values of HighsModelStatus used by the solve driver. -/
inductive ModelStatus
  | kNotset
  | kOptimal
  | kInfeasible
  | kUnbounded
  | kUnboundedOrInfeasible
  | kReachedTimeLimit
  | kReachedIterationLimit
  | kReachedDualObjectiveValueUpperBound
  | kUnknown
deriving DecidableEq

/-- Modelled from the spec: interpretCallStatus (HighsStatus.cpp, not
under src/) merges a call status into the running return status, keeping
the worse of the two; warnings are never upgraded to errors silently. -/
def interpretCallStatus (call_status from_return_status : HStatus) : HStatus :=
  match call_status, from_return_status with
  | HStatus.kError, _ => HStatus.kError
  | _, HStatus.kError => HStatus.kError
  | HStatus.kWarning, _ => HStatus.kWarning
  | _, HStatus.kWarning => HStatus.kWarning
  | _, _ => HStatus.kOk

/-- Simplex strategy values of SimplexConst.h. -/
inductive SimplexStrategy
  | kChoose
  | kDual
  | kDualTasks
  | kDualMulti
  | kPrimal
deriving DecidableEq

/-- Minimum thread count for the parallel dual-multi strategy (the value
is irrelevant here because the embedding models a build without OpenMP,
where omp_max_threads is zero). -/
def kDualMultiMinThreads : Nat := 8

/-- Translation of HEkk::chooseSimplexStrategyThreads (strategy part,
without OpenMP so omp_max_threads = 0): the option strategy is used
directly unless it is choose, in which case dual is selected when the
basis is not primal feasible and primal otherwise; the parallel dual
upgrade requires enough OpenMP threads and thus never fires. -/
def chooseSimplexStrategy (options_strategy : SimplexStrategy)
    (parallel : Bool) (num_primal_infeasibility : Nat) : SimplexStrategy :=
  let simplex_strategy :=
    if options_strategy = SimplexStrategy.kChoose then
      if num_primal_infeasibility > 0 then SimplexStrategy.kDual
      else SimplexStrategy.kPrimal
    else options_strategy
  let omp_max_threads := 0
  if parallel ∧ simplex_strategy = SimplexStrategy.kDual
      ∧ kDualMultiMinThreads ≤ omp_max_threads then
    SimplexStrategy.kDualMulti
  else simplex_strategy

/-- Outcome of one algorithm driver invocation: the call status it
returns and the scaled model status it leaves in the engine.  The driver
bodies (HEkkPrimal, HEkkDual) are outside the verified sources, so each
invocation is an oracle parameter of the solve skeleton. -/
structure SolveOutcome where
  call_status : HStatus
  model_status : ModelStatus
deriving DecidableEq

/-- Result of the solve skeleton: return status, final model status, and
how often the initial primal driver, the dual driver, the disambiguating
primal driver, and the cleanup pass were invoked. -/
structure SolveResult where
  return_status : HStatus
  model_status : ModelStatus
  primal_calls : Nat
  dual_calls : Nat
  cleanup_calls : Nat
deriving DecidableEq

/-- Translation of the driver-dispatch skeleton of HEkk::solve together
with the optimality short-circuit of HEkk::initialiseForSolve: after
initialisation the model status is Optimal exactly when the computed
primal and dual infeasibility counts are both zero, in which case solve
returns Ok without invoking any driver; otherwise the strategy is chosen,
the corresponding driver runs, a dual UnboundedOrInfeasible outcome is
disambiguated by re-entering primal, errors propagate, and a Notset
status triggers the cleanup pass. -/
def solveSkeleton (options_strategy : SimplexStrategy) (parallel : Bool)
    (num_primal_infeasibility num_dual_infeasibility : Nat)
    (primalOut dualOut primalOut2 cleanupOut : SolveOutcome) : SolveResult :=
  -- initialiseForSolve, lines 537-542
  let scaled_model_status :=
    if num_primal_infeasibility = 0 ∧ num_dual_infeasibility = 0 then
      ModelStatus.kOptimal
    else ModelStatus.kNotset
  -- solve, lines 69-70
  if scaled_model_status = ModelStatus.kOptimal then
    { return_status := HStatus.kOk
      model_status := scaled_model_status
      primal_calls := 0
      dual_calls := 0
      cleanup_calls := 0 }
  else
    let simplex_strategy :=
      chooseSimplexStrategy options_strategy parallel num_primal_infeasibility
    -- Initial solve according to strategy
    let afterDriver : HStatus × ModelStatus × Nat × Nat :=
      if simplex_strategy = SimplexStrategy.kPrimal then
        (interpretCallStatus primalOut.call_status HStatus.kOk,
         primalOut.model_status, 1, 0)
      else
        let rs := interpretCallStatus dualOut.call_status HStatus.kOk
        -- Dual may set kUnboundedOrInfeasible, so use primal to distinguish
        if dualOut.model_status = ModelStatus.kUnboundedOrInfeasible then
          (interpretCallStatus primalOut2.call_status rs,
           primalOut2.model_status, 1, 1)
        else (rs, dualOut.model_status, 0, 1)
    let return_status := afterDriver.1
    let model_status := afterDriver.2.1
    let primal_calls := afterDriver.2.2.1
    let dual_calls := afterDriver.2.2.2
    if return_status = HStatus.kError then
      { return_status := HStatus.kError
        model_status := model_status
        primal_calls := primal_calls
        dual_calls := dual_calls
        cleanup_calls := 0 }
    else if model_status = ModelStatus.kNotset then
      let rs2 := interpretCallStatus cleanupOut.call_status return_status
      { return_status := rs2
        model_status := cleanupOut.model_status
        primal_calls := primal_calls
        dual_calls := dual_calls
        cleanup_calls := 1 }
    else
      { return_status := return_status
        model_status := model_status
        primal_calls := primal_calls
        dual_calls := dual_calls
        cleanup_calls := 0 }

/-- Claim C8: if after the initialisation phase of solve both the primal
and the dual infeasibility counts are zero, the model status is set to
Optimal and solve returns Ok without invoking any primal or dual simplex
driver (and without running cleanup). -/
theorem solve_optimal_shortcut (options_strategy : SimplexStrategy)
    (parallel : Bool) (npi ndi : Nat)
    (primalOut dualOut primalOut2 cleanupOut : SolveOutcome)
    (hnpi : npi = 0) (hndi : ndi = 0) :
    solveSkeleton options_strategy parallel npi ndi primalOut dualOut
        primalOut2 cleanupOut
      = { return_status := HStatus.kOk
          model_status := ModelStatus.kOptimal
          primal_calls := 0
          dual_calls := 0
          cleanup_calls := 0 } := by
  subst hnpi hndi
  simp [solveSkeleton]

/-- Witness for claim C8 at concrete driver oracles. -/
theorem solve_optimal_shortcut_witness :
    solveSkeleton SimplexStrategy.kChoose false 0 0
        ⟨HStatus.kOk, ModelStatus.kNotset⟩ ⟨HStatus.kOk, ModelStatus.kNotset⟩
        ⟨HStatus.kOk, ModelStatus.kNotset⟩ ⟨HStatus.kOk, ModelStatus.kNotset⟩
      = { return_status := HStatus.kOk
          model_status := ModelStatus.kOptimal
          primal_calls := 0
          dual_calls := 0
          cleanup_calls := 0 } :=
  solve_optimal_shortcut SimplexStrategy.kChoose false 0 0
    ⟨HStatus.kOk, ModelStatus.kNotset⟩ ⟨HStatus.kOk, ModelStatus.kNotset⟩
    ⟨HStatus.kOk, ModelStatus.kNotset⟩ ⟨HStatus.kOk, ModelStatus.kNotset⟩
    rfl rfl

/-- Claim C7: when the chosen strategy is a dual one and the dual driver
finishes with model status UnboundedOrInfeasible, the skeleton re-enters
the primal driver, the final status follows that primal run (Unbounded
stays Unbounded, Infeasible stays Infeasible), and a final
UnboundedOrInfeasible status can only come from the disambiguating primal
run or from cleanup, never directly from the dual driver. -/
theorem solve_dual_unbounded_or_infeasible (options_strategy : SimplexStrategy)
    (parallel : Bool) (npi ndi : Nat)
    (primalOut dualOut primalOut2 cleanupOut : SolveOutcome)
    (hstrat : chooseSimplexStrategy options_strategy parallel npi
        ≠ SimplexStrategy.kPrimal)
    (hnotopt : ¬(npi = 0 ∧ ndi = 0))
    (hdual : dualOut.model_status = ModelStatus.kUnboundedOrInfeasible) :
    (1 ≤ (solveSkeleton options_strategy parallel npi ndi primalOut dualOut
        primalOut2 cleanupOut).primal_calls) ∧
    (primalOut2.model_status = ModelStatus.kUnbounded →
      (solveSkeleton options_strategy parallel npi ndi primalOut dualOut
          primalOut2 cleanupOut).model_status = ModelStatus.kUnbounded) ∧
    (primalOut2.model_status = ModelStatus.kInfeasible →
      (solveSkeleton options_strategy parallel npi ndi primalOut dualOut
          primalOut2 cleanupOut).model_status = ModelStatus.kInfeasible) ∧
    ((solveSkeleton options_strategy parallel npi ndi primalOut dualOut
        primalOut2 cleanupOut).model_status
          = ModelStatus.kUnboundedOrInfeasible →
      primalOut2.model_status = ModelStatus.kUnboundedOrInfeasible ∨
      cleanupOut.model_status = ModelStatus.kUnboundedOrInfeasible) := by
  simp only [solveSkeleton]
  rw [if_neg hnotopt]
  rw [if_neg (by decide : ¬(ModelStatus.kNotset = ModelStatus.kOptimal))]
  rw [if_neg hstrat, if_pos hdual]
  split_ifs <;> simp_all

/-- Witness for claim C7 at concrete driver oracles: the dual driver
reports UnboundedOrInfeasible and the disambiguating primal run reports
Unbounded, so the final status is Unbounded. -/
theorem solve_dual_unbounded_or_infeasible_witness :
    (solveSkeleton SimplexStrategy.kDual false 1 0
        ⟨HStatus.kOk, ModelStatus.kNotset⟩
        ⟨HStatus.kOk, ModelStatus.kUnboundedOrInfeasible⟩
        ⟨HStatus.kOk, ModelStatus.kUnbounded⟩
        ⟨HStatus.kOk, ModelStatus.kNotset⟩).model_status
      = ModelStatus.kUnbounded :=
  (solve_dual_unbounded_or_infeasible SimplexStrategy.kDual false 1 0
    ⟨HStatus.kOk, ModelStatus.kNotset⟩
    ⟨HStatus.kOk, ModelStatus.kUnboundedOrInfeasible⟩
    ⟨HStatus.kOk, ModelStatus.kUnbounded⟩
    ⟨HStatus.kOk, ModelStatus.kNotset⟩
    (by decide) (by decide) rfl).2.1 rfl

/-- The LP record of the interface layer: dimensions, cost and bound
vectors, the constraint matrix in column-wise CSC form, and the user
scaling exponents. -/
structure HighsLp where
  num_col : Nat
  num_row : Nat
  col_cost : List ℚ
  col_lower : List ℚ
  col_upper : List ℚ
  row_lower : List ℚ
  row_upper : List ℚ
  a_start : List Nat
  a_index : List Nat
  a_value : List ℚ
  user_bound_scale : Int
  user_cost_scale : Int
deriving DecidableEq

/-- Multiply the slice [a, b) of a value list by a scalar (the column
slice of a CSC matrix). -/
def scaleValueSeg (v : List ℚ) (a b : Nat) (s : ℚ) : List ℚ :=
  v.take a ++ ((v.drop a).take (b - a)).map (fun x => x * s) ++ v.drop b

/-- Writing back the value read at a position leaves a list unchanged. -/
theorem set_getD_self {α : Type} :
    ∀ (l : List α) (n : Nat) (d : α), n < l.length → l.set n (l.getD n d) = l := by
  intro l
  induction l with
  | nil => intro n d h; cases h
  | cons hd t ih =>
      intro n d h
      cases n with
      | zero => simp
      | succ n =>
          simp only [List.set_cons_succ, List.getD_cons_succ]
          rw [ih n d (by simpa using h)]

/-- Reading a just-written position. -/
theorem getD_set_self {α : Type} (l : List α) (n : Nat) (x d : α) :
    (l.set n x).getD n d = if n < l.length then x else d := by
  by_cases h : n < l.length
  · rw [if_pos h]
    have hn : n < (l.set n x).length := by simpa [List.length_set] using h
    rw [List.getD_eq_getElem _ d hn, List.getElem_set_self hn]
  · rw [if_neg h, List.set_eq_of_length_le (by omega), List.getD_eq_default]
    omega


/-- Scaling a slice by s and then by t is the identity when t inverts s
on every value. -/
theorem scaleValueSeg_roundtrip (v : List ℚ) (a b : Nat) (hab : a ≤ b)
    (hb : b ≤ v.length) (s t : ℚ) (hst : ∀ x : ℚ, x * s * t = x) :
    scaleValueSeg (scaleValueSeg v a b s) a b t = v := by
  have hav : a ≤ v.length := le_trans hab hb
  have hta : (v.take a).length = a := by rw [List.length_take]; omega
  have hma : ((v.drop a).take (b - a)).length = b - a := by
    rw [List.length_take, List.length_drop]; omega
  have hmlen : (((v.drop a).take (b - a)).map (fun x => x * s)).length
      = b - a := by rw [List.length_map, hma]
  have hw : scaleValueSeg v a b s
      = v.take a
        ++ (((v.drop a).take (b - a)).map (fun x => x * s) ++ v.drop b) := by
    rw [scaleValueSeg, List.append_assoc]
  have htakea : (scaleValueSeg v a b s).take a = v.take a := by
    have h0 := List.take_left (v.take a)
      (((v.drop a).take (b - a)).map (fun x => x * s) ++ v.drop b)
    rw [hta] at h0
    rw [hw, h0]
  have hdropa : (scaleValueSeg v a b s).drop a
      = ((v.drop a).take (b - a)).map (fun x => x * s) ++ v.drop b := by
    have h0 := List.drop_left (v.take a)
      (((v.drop a).take (b - a)).map (fun x => x * s) ++ v.drop b)
    rw [hta] at h0
    rw [hw, h0]
  have hmid : ((scaleValueSeg v a b s).drop a).take (b - a)
      = ((v.drop a).take (b - a)).map (fun x => x * s) := by
    have h0 := List.take_left
      (((v.drop a).take (b - a)).map (fun x => x * s)) (v.drop b)
    rw [hmlen] at h0
    rw [hdropa, h0]
  have hdropb : (scaleValueSeg v a b s).drop b = v.drop b := by
    have h1 : (scaleValueSeg v a b s).drop b
        = ((scaleValueSeg v a b s).drop a).drop (b - a) := by
      rw [List.drop_drop]
      congr 1
      omega
    have h0 := List.drop_left
      (((v.drop a).take (b - a)).map (fun x => x * s)) (v.drop b)
    rw [hmlen] at h0
    rw [h1, hdropa, h0]
  have hmm : (((v.drop a).take (b - a)).map (fun x => x * s)).map
      (fun x => x * t) = (v.drop a).take (b - a) := by
    rw [List.map_map]
    have h2 : ((fun x => x * t) ∘ fun x : ℚ => x * s) = fun x : ℚ => x * s * t :=
      rfl
    rw [h2]
    have h3 : ((v.drop a).take (b - a)).map (fun x : ℚ => x * s * t)
        = ((v.drop a).take (b - a)).map id :=
      List.map_congr_left (fun x _ => hst x)
    rw [h3, List.map_id]
  rw [scaleValueSeg, htakea, hmid, hdropb, hmm, List.append_assoc]
  have h4 : (v.drop a).take (b - a) ++ v.drop b = v.drop a := by
    have h5 : v.drop b = ((v.drop a)).drop (b - a) := by
      rw [List.drop_drop]
      congr 1
      omega
    rw [h5, List.take_append_drop]
  rw [h4, List.take_append_drop]

/-- Modelled from the spec: applyScalingToLpCol (HighsLpUtils.cpp, not
under src/) multiplies the entries of column col of the constraint matrix
and the cost of the column by the nonzero scalar, and divides the bounds
of the column by the scalar, swapping lower and upper when the scalar is
negative. -/
def applyScalingToLpCol (lp : HighsLp) (col : Nat) (colScale : ℚ) : HighsLp :=
  let a := lp.a_start.getD col 0
  let b := lp.a_start.getD (col + 1) 0
  { lp with
    a_value := scaleValueSeg lp.a_value a b colScale
    col_cost := lp.col_cost.set col (lp.col_cost.getD col 0 * colScale)
    col_lower :=
      if 0 < colScale then
        lp.col_lower.set col (lp.col_lower.getD col 0 / colScale)
      else lp.col_lower.set col (lp.col_upper.getD col 0 / colScale)
    col_upper :=
      if 0 < colScale then
        lp.col_upper.set col (lp.col_upper.getD col 0 / colScale)
      else lp.col_upper.set col (lp.col_lower.getD col 0 / colScale) }

/-- The nonbasic-status flip of Highs::scaleColInterface on the
high-level basis: lower becomes upper and upper becomes lower, all other
statuses unchanged. -/
def flipStatusList (l : List HighsBasisStatus) (c : Nat) :
    List HighsBasisStatus :=
  if l.getD c HighsBasisStatus.kNonbasic = HighsBasisStatus.kLower then
    l.set c HighsBasisStatus.kUpper
  else if l.getD c HighsBasisStatus.kNonbasic = HighsBasisStatus.kUpper then
    l.set c HighsBasisStatus.kLower
  else l

/-- The nonbasic-move flip of Highs::scaleColInterface on the simplex
basis: move up becomes move down and conversely. -/
def flipMoveList (l : List Int) (c : Nat) : List Int :=
  if l.getD c 0 = kNonbasicMoveUp then l.set c kNonbasicMoveDn
  else if l.getD c 0 = kNonbasicMoveDn then l.set c kNonbasicMoveUp
  else l

/-- Flipping a status twice restores the list. -/
theorem flipStatusList_involutive (l : List HighsBasisStatus) (c : Nat) :
    flipStatusList (flipStatusList l c) c = l := by
  by_cases hc : c < l.length
  · by_cases h1 : l.getD c HighsBasisStatus.kNonbasic = HighsBasisStatus.kLower
    · have e1 : flipStatusList l c = l.set c HighsBasisStatus.kUpper := by
        unfold flipStatusList
        rw [if_pos h1]
      have hget : (l.set c HighsBasisStatus.kUpper).getD c
          HighsBasisStatus.kNonbasic = HighsBasisStatus.kUpper := by
        rw [getD_set_self, if_pos hc]
      rw [e1]
      unfold flipStatusList
      rw [if_neg (by rw [hget]; exact fun h => by cases h), if_pos hget,
        List.set_set, ← h1, set_getD_self l c _ hc]
    · by_cases h2 : l.getD c HighsBasisStatus.kNonbasic
          = HighsBasisStatus.kUpper
      · have e1 : flipStatusList l c = l.set c HighsBasisStatus.kLower := by
          unfold flipStatusList
          rw [if_neg h1, if_pos h2]
        have hget : (l.set c HighsBasisStatus.kLower).getD c
            HighsBasisStatus.kNonbasic = HighsBasisStatus.kLower := by
          rw [getD_set_self, if_pos hc]
        rw [e1]
        unfold flipStatusList
        rw [if_pos hget, List.set_set, ← h2, set_getD_self l c _ hc]
      · have e1 : flipStatusList l c = l := by
          unfold flipStatusList
          rw [if_neg h1, if_neg h2]
        rw [e1, e1]
  · have hget : l.getD c HighsBasisStatus.kNonbasic
        = HighsBasisStatus.kNonbasic := by
      rw [List.getD_eq_default]
      omega
    have e1 : flipStatusList l c = l := by
      unfold flipStatusList
      rw [if_neg (by rw [hget]; exact fun h => by cases h),
        if_neg (by rw [hget]; exact fun h => by cases h)]
    rw [e1, e1]

/-- Flipping a move twice restores the list. -/
theorem flipMoveList_involutive (l : List Int) (c : Nat) :
    flipMoveList (flipMoveList l c) c = l := by
  by_cases hc : c < l.length
  · by_cases h1 : l.getD c 0 = kNonbasicMoveUp
    · have e1 : flipMoveList l c = l.set c kNonbasicMoveDn := by
        unfold flipMoveList
        rw [if_pos h1]
      have hget : (l.set c kNonbasicMoveDn).getD c 0 = kNonbasicMoveDn := by
        rw [getD_set_self, if_pos hc]
      rw [e1]
      unfold flipMoveList
      rw [if_neg (by rw [hget]; decide), if_pos hget,
        List.set_set, ← h1, set_getD_self l c _ hc]
    · by_cases h2 : l.getD c 0 = kNonbasicMoveDn
      · have e1 : flipMoveList l c = l.set c kNonbasicMoveUp := by
          unfold flipMoveList
          rw [if_neg h1, if_pos h2]
        have hget : (l.set c kNonbasicMoveUp).getD c 0 = kNonbasicMoveUp := by
          rw [getD_set_self, if_pos hc]
        rw [e1]
        unfold flipMoveList
        rw [if_pos hget, List.set_set, ← h2, set_getD_self l c _ hc]
      · have e1 : flipMoveList l c = l := by
          unfold flipMoveList
          rw [if_neg h1, if_neg h2]
        rw [e1, e1]
  · have hget : l.getD c 0 = 0 := by
      rw [List.getD_eq_default]
      omega
    have e1 : flipMoveList l c = l := by
      unfold flipMoveList
      rw [if_neg (by rw [hget]; decide), if_neg (by rw [hget]; decide)]
    rw [e1, e1]

/-- The slice of Highs state visible to scaleColInterface: the LP, the
high-level basis with its statuses, the simplex nonbasic moves, and the
model status reset by invalidation.  The LP is kept column-wise in this
model, so ensureColwise is the identity. -/
structure HighsState where
  lp : HighsLp
  basis_valid : Bool
  col_status : List HighsBasisStatus
  row_status : List HighsBasisStatus
  initialised_for_solve : Bool
  has_simplex_basis : Bool
  simplex_nonbasicMove : List Int
  model_status : ModelStatus
deriving DecidableEq

/-- Translation of Highs::scaleColInterface: reject a negative or
out-of-range column or a zero scalar; otherwise scale the LP column, flip
the high-level nonbasic status and (when the simplex data is initialised
with a basis) the simplex nonbasic move for a negative scalar, and
invalidate the model status. -/
def scaleColInterface (st : HighsState) (col : Int) (scale_value : ℚ) :
    HStatus × HighsState :=
  if col < 0 then (HStatus.kError, st)
  else if (st.lp.num_col : Int) ≤ col then (HStatus.kError, st)
  else if scale_value = 0 then (HStatus.kError, st)
  else
    let c := col.toNat
    let lp1 := applyScalingToLpCol st.lp c scale_value
    let col_status :=
      if scale_value < 0 ∧ st.basis_valid then flipStatusList st.col_status c
      else st.col_status
    let simplex_nonbasicMove :=
      if st.initialised_for_solve then
        if scale_value < 0 ∧ st.has_simplex_basis then
          flipMoveList st.simplex_nonbasicMove c
        else st.simplex_nonbasicMove
      else st.simplex_nonbasicMove
    (HStatus.kOk,
     { st with
       lp := lp1
       col_status := col_status
       simplex_nonbasicMove := simplex_nonbasicMove
       model_status := ModelStatus.kNotset })

/-- Unfolding lemma for a successful scaleColInterface call. -/
theorem scaleColInterface_ok (st : HighsState) (col : Int) (s : ℚ)
    (hc0 : ¬(col < 0)) (hc1 : ¬((st.lp.num_col : Int) ≤ col))
    (hs : ¬(s = 0)) :
    scaleColInterface st col s
      = (HStatus.kOk,
         { st with
           lp := applyScalingToLpCol st.lp col.toNat s
           col_status :=
             if s < 0 ∧ st.basis_valid then
               flipStatusList st.col_status col.toNat
             else st.col_status
           simplex_nonbasicMove :=
             if st.initialised_for_solve then
               if s < 0 ∧ st.has_simplex_basis then
                 flipMoveList st.simplex_nonbasicMove col.toNat
               else st.simplex_nonbasicMove
             else st.simplex_nonbasicMove
           model_status := ModelStatus.kNotset }) := by
  unfold scaleColInterface
  rw [if_neg hc0, if_neg hc1, if_neg hs]

/-- Claim C9: for every in-range column and nonzero scalar s, scaling the
column by s and then by 1/s succeeds and restores the constraint matrix
exactly, together with the cost, the bounds, the high-level nonbasic
status and the simplex nonbasic move flipped by a negative s. -/
theorem scaleCol_roundtrip (st : HighsState) (col : Int) (s : ℚ)
    (hc0 : 0 ≤ col) (hc1 : col < (st.lp.num_col : Int)) (hs : s ≠ 0)
    (hab : st.lp.a_start.getD col.toNat 0
        ≤ st.lp.a_start.getD (col.toNat + 1) 0)
    (hbl : st.lp.a_start.getD (col.toNat + 1) 0 ≤ st.lp.a_value.length)
    (hcost : col.toNat < st.lp.col_cost.length)
    (hlb : col.toNat < st.lp.col_lower.length)
    (hub : col.toNat < st.lp.col_upper.length) :
    (scaleColInterface st col s).1 = HStatus.kOk ∧
    (scaleColInterface (scaleColInterface st col s).2 col (1 / s)).1
        = HStatus.kOk ∧
    (scaleColInterface (scaleColInterface st col s).2 col (1 / s)).2.lp.a_value
        = st.lp.a_value ∧
    (scaleColInterface (scaleColInterface st col s).2 col (1 / s)).2.lp.a_start
        = st.lp.a_start ∧
    (scaleColInterface (scaleColInterface st col s).2 col (1 / s)).2.lp.a_index
        = st.lp.a_index ∧
    (scaleColInterface (scaleColInterface st col s).2 col (1 / s)).2.lp.col_cost
        = st.lp.col_cost ∧
    (scaleColInterface (scaleColInterface st col s).2 col (1 / s)).2.lp.col_lower
        = st.lp.col_lower ∧
    (scaleColInterface (scaleColInterface st col s).2 col (1 / s)).2.lp.col_upper
        = st.lp.col_upper ∧
    (scaleColInterface (scaleColInterface st col s).2 col (1 / s)).2.col_status
        = st.col_status ∧
    (scaleColInterface (scaleColInterface st col s).2 col
        (1 / s)).2.simplex_nonbasicMove = st.simplex_nonbasicMove := by
  have hs1 : ¬((1 : ℚ) / s = 0) := one_div_ne_zero hs
  rw [scaleColInterface_ok st col s (by omega) (by omega) hs]
  dsimp only
  rw [scaleColInterface_ok]
  rotate_left
  · omega
  · dsimp only [applyScalingToLpCol]
    omega
  · exact hs1
  dsimp only [applyScalingToLpCol]
  refine ⟨rfl, rfl, ?_, rfl, rfl, ?_, ?_, ?_, ?_, ?_⟩
  · exact scaleValueSeg_roundtrip _ _ _ hab hbl s (1 / s)
      (fun x => by field_simp)
  · rw [getD_set_self, if_pos hcost, List.set_set]
    have hval : st.lp.col_cost.getD col.toNat 0 * s * (1 / s)
        = st.lp.col_cost.getD col.toNat 0 := by field_simp
    rw [hval, set_getD_self _ _ _ hcost]
  · rcases hs.lt_or_lt with hneg | hpos
    · have hns : ¬(0 < s) := by linarith
      have hinv : ¬(0 < 1 / s) := by
        have := one_div_neg.mpr hneg
        linarith
      simp only [if_neg hns, if_neg hinv]
      rw [getD_set_self, if_pos hub, List.set_set]
      have hval : st.lp.col_lower.getD col.toNat 0 / s / (1 / s)
          = st.lp.col_lower.getD col.toNat 0 := by field_simp
      rw [hval, set_getD_self _ _ _ hlb]
    · have hinv : 0 < 1 / s := one_div_pos.mpr hpos
      simp only [if_pos hpos, if_pos hinv]
      rw [getD_set_self, if_pos hlb, List.set_set]
      have hval : st.lp.col_lower.getD col.toNat 0 / s / (1 / s)
          = st.lp.col_lower.getD col.toNat 0 := by field_simp
      rw [hval, set_getD_self _ _ _ hlb]
  · rcases hs.lt_or_lt with hneg | hpos
    · have hns : ¬(0 < s) := by linarith
      have hinv : ¬(0 < 1 / s) := by
        have := one_div_neg.mpr hneg
        linarith
      simp only [if_neg hns, if_neg hinv]
      rw [getD_set_self, if_pos hlb, List.set_set]
      have hval : st.lp.col_upper.getD col.toNat 0 / s / (1 / s)
          = st.lp.col_upper.getD col.toNat 0 := by field_simp
      rw [hval, set_getD_self _ _ _ hub]
    · have hinv : 0 < 1 / s := one_div_pos.mpr hpos
      simp only [if_pos hpos, if_pos hinv]
      rw [getD_set_self, if_pos hub, List.set_set]
      have hval : st.lp.col_upper.getD col.toNat 0 / s / (1 / s)
          = st.lp.col_upper.getD col.toNat 0 := by field_simp
      rw [hval, set_getD_self _ _ _ hub]
  · rcases hs.lt_or_lt with hneg | hpos
    · have hinv : (1 : ℚ) / s < 0 := one_div_neg.mpr hneg
      by_cases hbv : st.basis_valid
      · simp [hneg, hinv, hbv, flipStatusList_involutive]
      · simp [hbv]
    · have hns : ¬(s < 0) := by linarith
      have hinv : ¬((1 : ℚ) / s < 0) := by
        have := one_div_pos.mpr hpos
        linarith
      simp [hns, hinv]
  · rcases hs.lt_or_lt with hneg | hpos
    · have hinv : (1 : ℚ) / s < 0 := one_div_neg.mpr hneg
      by_cases hini : st.initialised_for_solve
      · by_cases hsb : st.has_simplex_basis
        · simp [hneg, hinv, hini, hsb, flipMoveList_involutive]
        · simp [hsb, hini]
      · simp [hini]
    · have hns : ¬(s < 0) := by linarith
      have hinv : ¬((1 : ℚ) / s < 0) := by
        have := one_div_pos.mpr hpos
        linarith
      by_cases hini : st.initialised_for_solve <;> simp [hns, hinv, hini]

/-- Concrete state for the column-scaling roundtrip: one column with one
nonzero, boxed bounds and a known basis. -/
def scaleStW : HighsState :=
  { lp :=
      { num_col := 1
        num_row := 1
        col_cost := [2]
        col_lower := [-1]
        col_upper := [3]
        row_lower := [0]
        row_upper := [1]
        a_start := [0, 1]
        a_index := [0]
        a_value := [4]
        user_bound_scale := 0
        user_cost_scale := 0 }
    basis_valid := true
    col_status := [HighsBasisStatus.kLower]
    row_status := [HighsBasisStatus.kBasic]
    initialised_for_solve := true
    has_simplex_basis := true
    simplex_nonbasicMove := [1]
    model_status := ModelStatus.kOptimal }

theorem scaleCol_roundtrip_witness :
    (scaleColInterface scaleStW 0 (-2)).1 = HStatus.kOk ∧
    (scaleColInterface (scaleColInterface scaleStW 0 (-2)).2 0
        (1 / (-2))).1 = HStatus.kOk ∧
    (scaleColInterface (scaleColInterface scaleStW 0 (-2)).2 0
        (1 / (-2))).2.lp.a_value = scaleStW.lp.a_value ∧
    (scaleColInterface (scaleColInterface scaleStW 0 (-2)).2 0
        (1 / (-2))).2.lp.col_cost = scaleStW.lp.col_cost ∧
    (scaleColInterface (scaleColInterface scaleStW 0 (-2)).2 0
        (1 / (-2))).2.lp.col_lower = scaleStW.lp.col_lower ∧
    (scaleColInterface (scaleColInterface scaleStW 0 (-2)).2 0
        (1 / (-2))).2.lp.col_upper = scaleStW.lp.col_upper ∧
    (scaleColInterface (scaleColInterface scaleStW 0 (-2)).2 0
        (1 / (-2))).2.col_status = scaleStW.col_status ∧
    (scaleColInterface (scaleColInterface scaleStW 0 (-2)).2 0
        (1 / (-2))).2.simplex_nonbasicMove = scaleStW.simplex_nonbasicMove := by
  have h := scaleCol_roundtrip scaleStW 0 (-2) (by decide)
    (by show (0 : Int) < (1 : Nat); decide) (by norm_num)
    (by show (0 : Nat) ≤ 1; decide) (by show (1 : Nat) ≤ 1; decide)
    (by show (0 : Nat) < 1; decide) (by show (0 : Nat) < 1; decide)
    (by show (0 : Nat) < 1; decide)
  exact ⟨h.1, h.2.1, h.2.2.1, h.2.2.2.2.2.1, h.2.2.2.2.2.2.1,
    h.2.2.2.2.2.2.2.1, h.2.2.2.2.2.2.2.2.1, h.2.2.2.2.2.2.2.2.2⟩

/-- Append new column costs and bounds to the LP vectors
(appendColsToLpVectors). -/
def appendColsToLpVectors (lp : HighsLp) (cost lower upper : List ℚ) :
    HighsLp :=
  { lp with
    col_cost := lp.col_cost ++ cost
    col_lower := lp.col_lower ++ lower
    col_upper := lp.col_upper ++ upper }

/-- Modelled from the spec: addCols(B) appends B as additional columns of
the CSC constraint matrix (starts offset by the existing nonzero count,
indices and values appended); nstart carries the new columns' starts
including the final total. -/
def matrixAddCols (lp : HighsLp) (nstart nindex : List Nat)
    (nvalue : List ℚ) : HighsLp :=
  let base := lp.a_value.length
  { lp with
    a_start := lp.a_start.dropLast ++ nstart.map (· + base)
    a_index := lp.a_index ++ nindex
    a_value := lp.a_value ++ nvalue }

/-- Modelled from the spec: the matrix assess validates, among other
checks, that no value is infinite. -/
def assessMatrixNoInf (_start _index : List Nat) (value : List ℚ) :
    HStatus :=
  if value.any (fun v => highs_isInfinity |v|) then HStatus.kError
  else HStatus.kOk

/-- Translation of Highs::addColsInterface over the list model. A negative
column or nonzero count is unrepresentable in the Nat model (the C++ guards
return Error for them); null data pointers are Option none. The shared
assessors (assessCosts, assessBounds, boundScaleOk, costScaleOk, the
matrix assess) live outside this repository and are taken as parameters.
The basis update, names and engine notification act on state other than
the LP and are not modelled here. -/
def addColsInterface (lp : HighsLp) (n : Nat)
    (ocost olower oupper : Option (List ℚ)) (nz : Nat)
    (ostart oindex : Option (List Nat)) (ovalue : Option (List ℚ))
    (aCosts : List ℚ → HStatus) (aBounds : List ℚ → List ℚ → HStatus)
    (bScaleOk : List ℚ → List ℚ → Int → Bool)
    (cScaleOk : List ℚ → Int → Bool)
    (aMatrix : List Nat → List Nat → List ℚ → HStatus) :
    HStatus × HighsLp :=
  if n = 0 then (HStatus.kOk, lp) else
  match ocost, olower, oupper with
  | some ecost, some elower, some eupper =>
    let mdata : Option (List Nat × List Nat × List ℚ) :=
      match ostart, oindex, ovalue with
      | some es, some ei, some ev => some (es, ei, ev)
      | _, _, _ => none
    if 0 < nz ∧ mdata = none then (HStatus.kError, lp) else
    if lp.num_row = 0 ∧ 0 < nz then (HStatus.kError, lp) else
    let local_cost := ecost.take n
    let local_lower := elower.take n
    let local_upper := eupper.take n
    if aCosts local_cost = HStatus.kError then (HStatus.kError, lp) else
    if aBounds local_lower local_upper = HStatus.kError then
      (HStatus.kError, lp) else
    if lp.user_bound_scale ≠ 0 ∧
        ¬ bScaleOk local_lower local_upper lp.user_bound_scale then
      (HStatus.kError, lp) else
    if lp.user_cost_scale ≠ 0 ∧
        ¬ cScaleOk local_cost lp.user_cost_scale then
      (HStatus.kError, lp) else
    let bscale : ℚ := (2 : ℚ) ^ lp.user_bound_scale
    let cscale : ℚ := (2 : ℚ) ^ lp.user_cost_scale
    let scaled_lower := if lp.user_bound_scale ≠ 0 then
      local_lower.map (· * bscale) else local_lower
    let scaled_upper := if lp.user_bound_scale ≠ 0 then
      local_upper.map (· * bscale) else local_upper
    let scaled_cost := if lp.user_cost_scale ≠ 0 then
      local_cost.map (· * cscale) else local_cost
    let lp1 := appendColsToLpVectors lp scaled_cost scaled_lower scaled_upper
    if 0 < nz then
      match mdata with
      | some (estart, eindex, evalue) =>
        let lstart := estart.take n ++ [nz]
        let lindex := eindex.take nz
        let lvalue := evalue.take nz
        if aMatrix lstart lindex lvalue = HStatus.kError then
          (HStatus.kError, lp1)
        else
          (HStatus.kOk,
            { matrixAddCols lp1 lstart lindex lvalue with
              num_col := lp.num_col + n })
      | none => (HStatus.kError, lp1)
    else
      (HStatus.kOk,
        { matrixAddCols lp1 (List.replicate (n + 1) 0) [] [] with
          num_col := lp.num_col + n })
  | _, _, _ => (HStatus.kError, lp)

/-- The LP before the partial-mutation counterexample: no columns, one
row, no nonzeros, no user scaling. -/
def addColsLp0 : HighsLp :=
  { num_col := 0
    num_row := 1
    col_cost := []
    col_lower := []
    col_upper := []
    row_lower := [0]
    row_upper := [1]
    a_start := [0]
    a_index := []
    a_value := []
    user_bound_scale := 0
    user_cost_scale := 0 }

/-- Claim C2 counterexample: adding one column whose matrix value is
infinite makes addColsInterface return Error after the cost and bound
vectors were already appended, so the LP is not left as it was. -/
theorem addColsInterface_partial_mutation_counterexample :
    (addColsInterface addColsLp0 1 (some [1]) (some [0]) (some [1]) 1
        (some [0]) (some [0]) (some [kHighsInf])
        (fun _ => HStatus.kOk) (fun _ _ => HStatus.kOk)
        (fun _ _ _ => true) (fun _ _ => true) assessMatrixNoInf).1
      = HStatus.kError ∧
    (addColsInterface addColsLp0 1 (some [1]) (some [0]) (some [1]) 1
        (some [0]) (some [0]) (some [kHighsInf])
        (fun _ => HStatus.kOk) (fun _ _ => HStatus.kOk)
        (fun _ _ _ => true) (fun _ _ => true) assessMatrixNoInf).2.col_cost
      = [1] ∧
    (addColsInterface addColsLp0 1 (some [1]) (some [0]) (some [1]) 1
        (some [0]) (some [0]) (some [kHighsInf])
        (fun _ => HStatus.kOk) (fun _ _ => HStatus.kOk)
        (fun _ _ _ => true) (fun _ _ => true) assessMatrixNoInf).2
      ≠ addColsLp0 := by
  refine ⟨?_, ?_, ?_⟩ <;> decide

/-- The LP-mutation bound on an Error return of addColsInterface: counts,
matrix and row data unchanged, column cost/bound vectors at worst
extended by a suffix. -/
def addColsErrorInvariant (lp : HighsLp) (r : HStatus × HighsLp) : Prop :=
  (r.2.num_col = lp.num_col ∧ r.2.num_row = lp.num_row ∧
   r.2.a_start = lp.a_start ∧ r.2.a_index = lp.a_index ∧
   r.2.a_value = lp.a_value ∧ r.2.row_lower = lp.row_lower ∧
   r.2.row_upper = lp.row_upper) ∧
  ∃ cs ls us, r.2.col_cost = lp.col_cost ++ cs ∧
    r.2.col_lower = lp.col_lower ++ ls ∧ r.2.col_upper = lp.col_upper ++ us

theorem addColsErrorInvariant_self (lp : HighsLp) (s : HStatus) :
    addColsErrorInvariant lp (s, lp) :=
  ⟨⟨rfl, rfl, rfl, rfl, rfl, rfl, rfl⟩,
    [], [], [], by simp, by simp, by simp⟩

theorem addColsErrorInvariant_append (lp : HighsLp) (s : HStatus)
    (c l u : List ℚ) :
    addColsErrorInvariant lp (s, appendColsToLpVectors lp c l u) :=
  ⟨⟨rfl, rfl, rfl, rfl, rfl, rfl, rfl⟩, c, l, u, rfl, rfl, rfl⟩

set_option maxHeartbeats 800000

/-- Claim C2 (amended): whenever addColsInterface returns Error, the
column and row counts, the constraint matrix and the row bounds are
unchanged, and each of the column cost, lower and upper vectors equals
the original with some (possibly empty) suffix appended: the error
returns before appendColsToLpVectors leave the LP fully unchanged, while
an Error from the matrix assessment leaves the new columns' costs and
bounds already appended. -/
theorem addColsInterface_error_effects (lp : HighsLp) (n : Nat)
    (ocost olower oupper : Option (List ℚ)) (nz : Nat)
    (ostart oindex : Option (List Nat)) (ovalue : Option (List ℚ))
    (aCosts : List ℚ → HStatus) (aBounds : List ℚ → List ℚ → HStatus)
    (bScaleOk : List ℚ → List ℚ → Int → Bool)
    (cScaleOk : List ℚ → Int → Bool)
    (aMatrix : List Nat → List Nat → List ℚ → HStatus)
    (h : (addColsInterface lp n ocost olower oupper nz ostart oindex ovalue
        aCosts aBounds bScaleOk cScaleOk aMatrix).1 = HStatus.kError) :
    addColsErrorInvariant lp
      (addColsInterface lp n ocost olower oupper nz ostart oindex ovalue
        aCosts aBounds bScaleOk cScaleOk aMatrix) := by
  unfold addColsInterface at h ⊢
  by_cases hn : n = 0
  · rw [if_pos hn] at h
    exact HStatus.noConfusion h
  rw [if_neg hn] at h ⊢
  rcases ocost with _ | ecost
  · exact addColsErrorInvariant_self lp _
  rcases olower with _ | elower
  · exact addColsErrorInvariant_self lp _
  rcases oupper with _ | eupper
  · exact addColsErrorInvariant_self lp _
  rcases ostart with _ | es
  · dsimp only at h ⊢
    by_cases hnz : 0 < nz
    · have hc1 : 0 < nz ∧
          (none : Option (List Nat × List Nat × List ℚ)) = none :=
        ⟨hnz, rfl⟩
      rw [if_pos hc1] at h ⊢
      exact addColsErrorInvariant_self lp _
    · have hc1 : ¬(0 < nz ∧
          (none : Option (List Nat × List Nat × List ℚ)) = none) :=
        fun hc => hnz hc.1
      have hc2 : ¬(lp.num_row = 0 ∧ 0 < nz) := fun hc => hnz hc.2
      rw [if_neg hc1, if_neg hc2] at h ⊢
      by_cases hac : aCosts (ecost.take n) = HStatus.kError
      · rw [if_pos hac] at h ⊢
        exact addColsErrorInvariant_self lp _
      rw [if_neg hac] at h ⊢
      by_cases hab : aBounds (elower.take n) (eupper.take n)
          = HStatus.kError
      · rw [if_pos hab] at h ⊢
        exact addColsErrorInvariant_self lp _
      rw [if_neg hab] at h ⊢
      by_cases hbs : lp.user_bound_scale ≠ 0 ∧
          ¬ bScaleOk (elower.take n) (eupper.take n) lp.user_bound_scale
      · rw [if_pos hbs] at h ⊢
        exact addColsErrorInvariant_self lp _
      rw [if_neg hbs] at h ⊢
      by_cases hcs : lp.user_cost_scale ≠ 0 ∧
          ¬ cScaleOk (ecost.take n) lp.user_cost_scale
      · rw [if_pos hcs] at h ⊢
        exact addColsErrorInvariant_self lp _
      rw [if_neg hcs] at h
      rw [if_neg hnz] at h
      exact HStatus.noConfusion h
  rcases oindex with _ | ei
  · dsimp only at h ⊢
    by_cases hnz : 0 < nz
    · have hc1 : 0 < nz ∧
          (none : Option (List Nat × List Nat × List ℚ)) = none :=
        ⟨hnz, rfl⟩
      rw [if_pos hc1] at h ⊢
      exact addColsErrorInvariant_self lp _
    · have hc1 : ¬(0 < nz ∧
          (none : Option (List Nat × List Nat × List ℚ)) = none) :=
        fun hc => hnz hc.1
      have hc2 : ¬(lp.num_row = 0 ∧ 0 < nz) := fun hc => hnz hc.2
      rw [if_neg hc1, if_neg hc2] at h ⊢
      by_cases hac : aCosts (ecost.take n) = HStatus.kError
      · rw [if_pos hac] at h ⊢
        exact addColsErrorInvariant_self lp _
      rw [if_neg hac] at h ⊢
      by_cases hab : aBounds (elower.take n) (eupper.take n)
          = HStatus.kError
      · rw [if_pos hab] at h ⊢
        exact addColsErrorInvariant_self lp _
      rw [if_neg hab] at h ⊢
      by_cases hbs : lp.user_bound_scale ≠ 0 ∧
          ¬ bScaleOk (elower.take n) (eupper.take n) lp.user_bound_scale
      · rw [if_pos hbs] at h ⊢
        exact addColsErrorInvariant_self lp _
      rw [if_neg hbs] at h ⊢
      by_cases hcs : lp.user_cost_scale ≠ 0 ∧
          ¬ cScaleOk (ecost.take n) lp.user_cost_scale
      · rw [if_pos hcs] at h ⊢
        exact addColsErrorInvariant_self lp _
      rw [if_neg hcs] at h
      rw [if_neg hnz] at h
      exact HStatus.noConfusion h
  rcases ovalue with _ | ev
  · dsimp only at h ⊢
    by_cases hnz : 0 < nz
    · have hc1 : 0 < nz ∧
          (none : Option (List Nat × List Nat × List ℚ)) = none :=
        ⟨hnz, rfl⟩
      rw [if_pos hc1] at h ⊢
      exact addColsErrorInvariant_self lp _
    · have hc1 : ¬(0 < nz ∧
          (none : Option (List Nat × List Nat × List ℚ)) = none) :=
        fun hc => hnz hc.1
      have hc2 : ¬(lp.num_row = 0 ∧ 0 < nz) := fun hc => hnz hc.2
      rw [if_neg hc1, if_neg hc2] at h ⊢
      by_cases hac : aCosts (ecost.take n) = HStatus.kError
      · rw [if_pos hac] at h ⊢
        exact addColsErrorInvariant_self lp _
      rw [if_neg hac] at h ⊢
      by_cases hab : aBounds (elower.take n) (eupper.take n)
          = HStatus.kError
      · rw [if_pos hab] at h ⊢
        exact addColsErrorInvariant_self lp _
      rw [if_neg hab] at h ⊢
      by_cases hbs : lp.user_bound_scale ≠ 0 ∧
          ¬ bScaleOk (elower.take n) (eupper.take n) lp.user_bound_scale
      · rw [if_pos hbs] at h ⊢
        exact addColsErrorInvariant_self lp _
      rw [if_neg hbs] at h ⊢
      by_cases hcs : lp.user_cost_scale ≠ 0 ∧
          ¬ cScaleOk (ecost.take n) lp.user_cost_scale
      · rw [if_pos hcs] at h ⊢
        exact addColsErrorInvariant_self lp _
      rw [if_neg hcs] at h
      rw [if_neg hnz] at h
      exact HStatus.noConfusion h
  dsimp only at h ⊢
  have hc1 : ¬(0 < nz ∧
      (some (es, ei, ev) : Option (List Nat × List Nat × List ℚ)) = none) :=
    fun hc => Option.noConfusion hc.2
  rw [if_neg hc1] at h ⊢
  by_cases hr : lp.num_row = 0 ∧ 0 < nz
  · rw [if_pos hr] at h ⊢
    exact addColsErrorInvariant_self lp _
  rw [if_neg hr] at h ⊢
  by_cases hac : aCosts (ecost.take n) = HStatus.kError
  · rw [if_pos hac] at h ⊢
    exact addColsErrorInvariant_self lp _
  rw [if_neg hac] at h ⊢
  by_cases hab : aBounds (elower.take n) (eupper.take n) = HStatus.kError
  · rw [if_pos hab] at h ⊢
    exact addColsErrorInvariant_self lp _
  rw [if_neg hab] at h ⊢
  by_cases hbs : lp.user_bound_scale ≠ 0 ∧
      ¬ bScaleOk (elower.take n) (eupper.take n) lp.user_bound_scale
  · rw [if_pos hbs] at h ⊢
    exact addColsErrorInvariant_self lp _
  rw [if_neg hbs] at h ⊢
  by_cases hcs : lp.user_cost_scale ≠ 0 ∧
      ¬ cScaleOk (ecost.take n) lp.user_cost_scale
  · rw [if_pos hcs] at h ⊢
    exact addColsErrorInvariant_self lp _
  rw [if_neg hcs] at h ⊢
  by_cases hnz : 0 < nz
  · rw [if_pos hnz] at h ⊢
    by_cases ham : aMatrix (es.take n ++ [nz]) (ei.take nz) (ev.take nz)
        = HStatus.kError
    · rw [if_pos ham] at h ⊢
      exact addColsErrorInvariant_append lp _ _ _ _
    rw [if_neg ham] at h
    exact HStatus.noConfusion h
  rw [if_neg hnz] at h
  exact HStatus.noConfusion h

theorem addColsInterface_error_effects_witness :
    (addColsInterface addColsLp0 1 (some [1]) (some [0]) (some [1]) 1
        (some [0]) (some [0]) (some [kHighsInf])
        (fun _ => HStatus.kOk) (fun _ _ => HStatus.kOk)
        (fun _ _ _ => true) (fun _ _ => true) assessMatrixNoInf).1
      = HStatus.kError ∧
    addColsErrorInvariant addColsLp0
      (addColsInterface addColsLp0 1 (some [1]) (some [0]) (some [1]) 1
        (some [0]) (some [0]) (some [kHighsInf])
        (fun _ => HStatus.kOk) (fun _ _ => HStatus.kOk)
        (fun _ _ _ => true) (fun _ _ => true) assessMatrixNoInf) :=
  ⟨by decide,
    addColsInterface_error_effects addColsLp0 1 (some [1]) (some [0])
      (some [1]) 1 (some [0]) (some [0]) (some [kHighsInf])
      (fun _ => HStatus.kOk) (fun _ _ => HStatus.kOk)
      (fun _ _ _ => true) (fun _ _ => true) assessMatrixNoInf (by decide)⟩
